import Mathlib

/-!
Verification development for the `cargo-for-each` target-resolution and
task-scheduling engine.

The Rust sources are shallowly embedded as executable Lean definitions:

* Pure data types (`Step`, `Plan`, `Target`, `ResolvedTargetSet`, `Config`,
  `TargetSet`, the error enum) are translated structurally from
  `src/plans.rs`, `src/targets.rs`, `src/target_sets.rs`, `src/lib.rs` and
  `src/error.rs`.
* The filesystem-backed task state store
  (`state/cargo-for-each/tasks/TASK/TARGET/STEP/...`) is embedded as a
  total function from the key triple to the per-step directory contents.
  File writes become function overrides on that key; I/O failures of
  `fs_err` writes/reads are not modelled (reads that can fail return
  `Option`, with `none` for an absent or unreadable file).
* External effects consumed by the executor (child process exit status of
  the recorded command, the operator's confirmation line, the
  executability probe of `fs_err::metadata`, `cargo metadata`,
  `canonicalize`, `Path::parent`) are oracles stored in the
  `Environment` / `ResolveOracle` records; an invocation observes a fixed
  oracle, which models deterministic external behaviour.
* The `buffer_unordered(jobs)` wavefront batch of
  `run_all_targets_command` is executed sequentially in ready order:
  distinct targets in a batch read and write disjoint `(target, step)`
  subtrees of the store, so any interleaving produces the same store and
  the same multiset of per-target results; only the order in which batch
  results are folded is fixed here.  The unbounded `loop` is given an
  explicit fuel parameter; running out of fuel (`none`) models
  divergence.
-/

set_option maxHeartbeats 1000000

namespace CargoForEach

/-- One step of a plan (src/plans.rs, `enum Step`). -/
inductive Step
  /-- a step that runs a command -/
  | RunCommand (command : String) (args : List String)
  /-- a step that requires manual intervention -/
  | ManualStep (title : String) (instructions : String)
  deriving DecidableEq, Repr

/-- A plan: an ordered list of steps (src/plans.rs, `struct Plan`). -/
structure Plan where
  steps : List Step
  deriving DecidableEq, Repr

/-- One node of a resolved target set (src/targets.rs, `struct Target`).
Paths are embedded as strings. -/
structure Target where
  manifest_dir : String
  dependencies : List String
  deriving DecidableEq, Repr

/-- A resolved target set (src/target_sets.rs, `struct ResolvedTargetSet`). -/
structure ResolvedTargetSet where
  targets : List Target
  deriving DecidableEq, Repr

/-- Crate type (src/targets.rs, `enum CrateType`). -/
inductive CrateType
  | Bin
  | Lib
  | ProcMacro
  deriving DecidableEq, Repr

/-- A registered workspace (src/lib.rs, `struct Workspace`). -/
structure Workspace where
  manifest_dir : String
  is_standalone : Bool
  deriving DecidableEq, Repr

/-- A registered crate (src/lib.rs, `struct Crate`).  The `types` set is
embedded as a list; only membership is ever queried. -/
structure Crate where
  manifest_dir : String
  workspace_manifest_dir : String
  types : List CrateType
  deriving DecidableEq, Repr

/-- The registry (src/lib.rs, `struct Config`). -/
structure Config where
  workspaces : List Workspace
  crates : List Crate
  deriving DecidableEq, Repr

/-- Crate filter (src/targets.rs, `struct CrateFilterParameters`); the Rust
field `r#type` is spelled `ctype` here. -/
structure CrateFilterParameters where
  ctype : Option CrateType
  standalone : Option Bool
  deriving DecidableEq, Repr

/-- Workspace filter (src/targets.rs, `struct WorkspaceFilterParameters`). -/
structure WorkspaceFilterParameters where
  no_standalone : Bool
  deriving DecidableEq, Repr

/-- A target-set filter (src/target_sets.rs, `enum TargetSet`). -/
inductive TargetSet
  | Crates (params : CrateFilterParameters)
  | Workspaces (params : WorkspaceFilterParameters)
  deriving DecidableEq, Repr

/-- The error enum (src/error.rs, `enum Error`), restricted to the
constructors reachable from the embedded operations.  The payloads carry
the same data as the Rust variants (paths and names as strings, the
captured exit status as `Option Int`).  The constructors `CommandFailed`,
`ManualStepNotConfirmed`, `SomeStepsFailed`, `CircularDependency`,
`CouldNotReadPlanFile` are used by src/tasks.rs; the first four are absent
from the provided src/error.rs snapshot and are modelled from the spec:
the spec's step errors "command executed but exited non-zero" and "manual
step declined by operator", the aggregate "some steps failed" error, and
the scheduling error "circular dependency among targets". -/
inductive Error
  | PlanStepOutOfBounds (position : Nat) (len : Nat)
  | TaskNotFound (name : String)
  | PlanNotFound (name : String)
  | TargetSetNotFound (name : String)
  | AlreadyExists (what : String)
  | CargoMetadataError (manifest_dir : String)
  | CouldNotDetermineCanonicalManifestPath (path : String)
  | ManifestPathHasNoParentDir (path : String)
  | FoundNoPackageInCargoMetadataWithGivenManifestPath (path : String)
  | CommandNotFound (command : String)
  | CommandFailed (command_str : String) (manifest_dir : String) (status : Option Int)
  | ManualStepNotConfirmed
  | SomeStepsFailed
  | CircularDependency
  deriving DecidableEq, Repr

/-- Contents of one per-(target, step) state directory
`state/cargo-for-each/tasks/TASK/TARGET/STEP`: whether the directory
exists, and the contents of the `exit_status` and
`manual_step_confirmed` files (`none` when absent or unreadable). -/
structure StepDirState where
  dir_exists : Bool
  exit_status : Option String
  manual_step_confirmed : Option String
  deriving DecidableEq, Repr

/-- The empty state directory: nothing on disk yet. -/
def StepDirState.empty : StepDirState :=
  { dir_exists := false, exit_status := none, manual_step_confirmed := none }

/-- A task directory under `config/cargo-for-each/tasks/NAME`: the frozen
copies written by `task_create_command` (plan.toml, target-set.toml,
resolved-target-set.toml). -/
structure TaskDirData where
  plan : Plan
  target_set : TargetSet
  resolved_target_set : ResolvedTargetSet
  deriving DecidableEq, Repr

/-- Oracle for the external collaborators of target resolution
(src/target_sets.rs):
`metadata d` is the package list returned by `cargo metadata` for the
manifest `d/Cargo.toml` (`none` models a `cargo metadata` failure);
`canonicalize` models `fs_err::canonicalize` / `Path::canonicalize`;
`parent_dir` models `Path::parent` (`none` when the path has no parent). -/
structure Package where
  pid : String
  name : String
  manifest_path : String
  dependencies : List String
  deriving DecidableEq, Repr

/-- Resolution oracle, see `Package`. -/
structure ResolveOracle where
  metadata : String → Option (List Package)
  canonicalize : String → Option String
  parent_dir : String → Option String

/-- The embedded `Environment` (src/lib.rs `struct Environment`) together
with the filesystem trees it points at and the external-effect oracles:

* `store` — the task state subtree keyed by (task name, target index,
  step index);
* `plan_files`, `target_set_files`, `config_file`, `task_dirs` — the
  config subtree, at parse level (a present file holds its parsed value;
  read/parse errors are not modelled);
* `path_dirs` — the `PATH` entries (src field `paths`);
* `executable_files` — the set of paths for which `is_executable`
  (src/utils.rs) holds, abstracting `fs_err::metadata`;
* `exit_code` — the exit status `status.code()` observed for the process
  the executor launches for this (task, target, step), `none` modelling
  termination by signal;
* `confirmation` — the operator's answer line read by the manual step;
* `resolve_oracle` — see `ResolveOracle`. -/
structure Environment where
  store : String → Nat → Nat → StepDirState
  plan_files : String → Option Plan
  target_set_files : String → Option TargetSet
  config_file : Option Config
  task_dirs : String → Option TaskDirData
  path_dirs : List String
  executable_files : List String
  exit_code : String → Nat → Nat → Option Int
  confirmation : String → Nat → Nat → String
  resolve_oracle : ResolveOracle

/-- Override the state store at one (task, target, step) key. -/
def update_store (env : Environment) (task_name : String)
    (target_number step_number : Nat) (f : StepDirState → StepDirState) :
    Environment :=
  { env with
    store := fun task' target' step' =>
      if task' = task_name ∧ target' = target_number ∧ step' = step_number then
        f (env.store task' target' step')
      else
        env.store task' target' step' }

/-- `fs_err::create_dir_all(&state_dir)` in `run_single_step`
(src/tasks.rs): afterwards the directory for this key exists. -/
def create_state_dir (env : Environment) (task_name : String)
    (target_number step_number : Nat) : Environment :=
  update_store env task_name target_number step_number
    (fun st => { st with dir_exists := true })

/-- `fs_err::write(&exit_status_path, ...)` in `run_single_step`. -/
def write_exit_status (env : Environment) (task_name : String)
    (target_number step_number : Nat) (content : String) : Environment :=
  update_store env task_name target_number step_number
    (fun st => { st with exit_status := some content })

/-- `fs_err::write(&manual_step_confirmed_path, ...)` in `run_single_step`. -/
def write_manual_step_confirmed (env : Environment) (task_name : String)
    (target_number step_number : Nat) (content : String) : Environment :=
  update_store env task_name target_number step_number
    (fun st => { st with manual_step_confirmed := some content })

/-- ASCII whitespace, the class stripped by `str::trim` on the contents
written by this program (which are digit strings, `"y"`/`"n"`, or empty,
possibly with a trailing newline added by hand-editing). -/
def is_ascii_whitespace (c : Char) : Bool :=
  c = ' ' || c = '\t' || c = '\n' || c = '\r'

/-- Drop leading whitespace characters. -/
def trim_left_chars : List Char → List Char
  | [] => []
  | c :: cs => if is_ascii_whitespace c then trim_left_chars cs else c :: cs

/-- `str::trim`: strip whitespace from both ends.  Implemented on the
character list so that it is structurally recursive (Lean's own
`String.trim` is not kernel-reducible). -/
def str_trim (s : String) : String :=
  String.mk (trim_left_chars ((trim_left_chars s.data).reverse)).reverse

/-- Lower-case one ASCII character. -/
def char_to_lower (c : Char) : Char :=
  if 'A' ≤ c ∧ c ≤ 'Z' then Char.ofNat (c.toNat + 32) else c

/-- `str::to_lowercase`, restricted to ASCII (the operator's answer is
compared against `"y"`/`"yes"`). -/
def str_to_lower (s : String) : String :=
  String.mk (s.data.map char_to_lower)

/-- `path.is_absolute()` for the unix path embedding used here: the path
starts with `/`. -/
def is_absolute_path (p : String) : Bool :=
  match p.data with
  | '/' :: _ => true
  | _ => false

/-- `p.join(command)` for a non-absolute `command` (the only use site in
`command_is_executable`). -/
def join_path (p command : String) : String :=
  p ++ "/" ++ command

/-- `is_executable` (src/utils.rs, unix variant): abstracted by the
`executable_files` oracle of the environment. -/
def is_executable (env : Environment) (path : String) : Bool :=
  env.executable_files.contains path

/-- `command_is_executable` (src/utils.rs): an absolute command is probed
directly, otherwise each `PATH` entry is prepended.  An unset `PATH` is
represented by an empty `path_dirs` list (both make the probe fail). -/
def command_is_executable (env : Environment) (command : String) : Bool :=
  if is_absolute_path command then
    is_executable env command
  else
    env.path_dirs.any fun p => is_executable env (join_path p command)

/-- `ExitStatus::success()` in terms of `ExitStatus::code()`: a process
succeeded iff it exited normally with code zero. -/
def status_success (status : Option Int) : Bool :=
  status == some 0

/-- `status.code().map_or_else(|| "".to_string(), |c| c.to_string())`. -/
def exit_status_content (status : Option Int) : String :=
  match status with
  | none => ""
  | some c => toString c

/-- `run_single_step` (src/tasks.rs lines 198-302).  Creates the state
directory, then:
for `RunCommand` — probes the command (`CommandNotFound` without running
anything when the probe fails), otherwise observes the recorded process
exit status, persists it into `exit_status`, and fails with
`CommandFailed` when it is non-zero;
for `ManualStep` — runs the recorded shell (its status only alters the
printed output), reads the operator's confirmation line, persists
`"y"`/`"n"` into `manual_step_confirmed`, and fails with
`ManualStepNotConfirmed` when the answer is not affirmative.
Printing to stdout is not modelled. -/
def run_single_step (step : Step) (manifest_dir : String)
    (task_name : String) (step_number target_number : Nat)
    (env : Environment) : Environment × Except Error Unit :=
  let env := create_state_dir env task_name target_number step_number
  match step with
  | .RunCommand command args =>
    if !command_is_executable env command then
      (env, .error (.CommandNotFound command))
    else
      let command_str := command ++ " " ++ " ".intercalate args
      let status := env.exit_code task_name target_number step_number
      let env := write_exit_status env task_name target_number step_number
        (exit_status_content status)
      if !status_success status then
        (env, .error (.CommandFailed command_str manifest_dir status))
      else
        (env, .ok ())
  | .ManualStep _ _ =>
    let confirmation := env.confirmation task_name target_number step_number
    let confirmed := str_to_lower (str_trim confirmation) == "y"
      || str_to_lower (str_trim confirmation) == "yes"
    let env := write_manual_step_confirmed env task_name target_number
      step_number (if confirmed then "y" else "n")
    if !confirmed then
      (env, .error .ManualStepNotConfirmed)
    else
      (env, .ok ())

/-- `is_step_completed` (src/tasks.rs lines 326-363): the step is complete
iff its state directory exists and, for `RunCommand`, the `exit_status`
file reads as `"0"` after trimming, or, for `ManualStep`, the
`manual_step_confirmed` file reads as `"y"` after trimming. -/
def is_step_completed (task_name : String) (target_number step_number : Nat)
    (step : Step) (env : Environment) : Bool :=
  let st := env.store task_name target_number step_number
  if !st.dir_exists then
    false
  else
    match step with
    | .RunCommand _ _ =>
      match st.exit_status with
      | some content => str_trim content == "0"
      | none => false
    | .ManualStep _ _ =>
      match st.manual_step_confirmed with
      | some content => str_trim content == "y"
      | none => false

/-- `iter().enumerate()` over a list, starting at index `n`. -/
def enum_from (n : Nat) : List α → List (Nat × α)
  | [] => []
  | a :: as => (n, a) :: enum_from (n + 1) as

/-- Lookup in an association list built like a `HashMap` collected from an
iterator: a later insert wins. -/
def map_get (m : List (String × Nat)) (key : String) : Option Nat :=
  m.reverse.lookup key

/-- The `target_map: HashMap<PathBuf, usize>` built (identically) in
`find_next_step`, `run_single_target_command` and
`run_all_targets_command`: manifest directory to 0-based target index. -/
def mk_target_map (targets : List Target) : List (String × Nat) :=
  (enum_from 0 targets).map fun it => (it.2.manifest_dir, it.1)

/-- `is_target_completed` (src/tasks.rs lines 366-381): every step of the
plan is completed for this target. -/
def is_target_completed (task_name : String) (target_idx : Nat) (plan : Plan)
    (env : Environment) : Bool :=
  (enum_from 0 plan.steps).all fun it =>
    is_step_completed task_name target_idx (it.1 + 1) it.2 env

/-- `are_target_dependencies_completed` (src/tasks.rs lines 384-401): every
dependency that is in the target map is fully completed; a dependency not
in the map is not checked. -/
def are_target_dependencies_completed (task_name : String) (target : Target)
    (plan : Plan) (target_map : List (String × Nat)) (env : Environment) :
    Bool :=
  target.dependencies.all fun dep_path =>
    match map_get target_map dep_path with
    | some dep_target_idx => is_target_completed task_name dep_target_idx plan env
    | none => true

/-- `struct NextStep` (src/tasks.rs lines 312-323). -/
structure NextStep where
  step : Step
  manifest_dir : String
  task_name : String
  step_number : Nat
  target_number : Nat
  deriving DecidableEq, Repr

/-- Inner loop of `find_next_step`: first step of `steps` (starting at
0-based index `step_idx`) that is not completed, with its 1-based number. -/
def find_first_incomplete_step (task_name : String) (target_idx : Nat)
    (env : Environment) : List Step → Nat → Option (Nat × Step)
  | [], _ => none
  | step :: rest, step_idx =>
    let step_number := step_idx + 1
    if !is_step_completed task_name target_idx step_number step env then
      some (step_number, step)
    else
      find_first_incomplete_step task_name target_idx env rest (step_idx + 1)

/-- Outer loop of `find_next_step` over the targets with their indices. -/
def find_next_step_aux (task_name : String) (plan : Plan)
    (target_map : List (String × Nat)) (env : Environment) :
    List Target → Nat → Option NextStep
  | [], _ => none
  | target :: rest, target_idx =>
    if are_target_dependencies_completed task_name target plan target_map env then
      match find_first_incomplete_step task_name target_idx env plan.steps 0 with
      | some (step_number, step) =>
        some { step := step, manifest_dir := target.manifest_dir,
               task_name := task_name, step_number := step_number,
               target_number := target_idx }
      | none => find_next_step_aux task_name plan target_map env rest (target_idx + 1)
    else
      find_next_step_aux task_name plan target_map env rest (target_idx + 1)

/-- `find_next_step` (src/tasks.rs lines 408-438): the first not-yet
completed step in the first target whose dependencies are all completed
and that has such a step. -/
def find_next_step (task_name : String) (plan : Plan)
    (resolved_target_set : ResolvedTargetSet) (env : Environment) :
    Option NextStep :=
  let target_map := mk_target_map resolved_target_set.targets
  find_next_step_aux task_name plan target_map env resolved_target_set.targets 0

/-- One dispatch of a step to the executor: target index, 1-based step
number, and the environment at the moment `run_single_step` is invoked. -/
structure Dispatch where
  target_number : Nat
  step_number : Nat
  env : Environment

/-- The per-target step loop shared by `run_single_target_command` and the
async block of `run_all_targets_command` (src/tasks.rs lines 543-556 and
627-646): walk the plan steps in order from 0-based index `step_idx`,
skip completed steps, run incomplete ones, and stop at the first failure.
Also returns the trace of dispatches. -/
def run_steps_from (task_name : String) (manifest_dir : String)
    (target_idx : Nat) (env : Environment) :
    List Step → Nat → Environment × Except Error Unit × List Dispatch
  | [], _ => (env, .ok (), [])
  | step :: rest, step_idx =>
    let step_number := step_idx + 1
    if !is_step_completed task_name target_idx step_number step env then
      let d : Dispatch := ⟨target_idx, step_number, env⟩
      let (env', r) := run_single_step step manifest_dir task_name
        step_number target_idx env
      match r with
      | .error e => (env', .error e, [d])
      | .ok _ =>
        let (env'', r'', tr) := run_steps_from task_name manifest_dir
          target_idx env' rest (step_idx + 1)
        (env'', r'', d :: tr)
    else
      run_steps_from task_name manifest_dir target_idx env rest (step_idx + 1)

/-- `run_single_step_command` (src/tasks.rs lines 447-483).  The plan and
resolved target set are the parsed contents of the task's `plan.toml` and
`resolved-target-set.toml`, passed in directly (file read/parse errors
are not modelled).  Returns the final environment, the command result,
and the dispatch trace. -/
def run_single_step_command (task_name : String) (plan : Plan)
    (resolved_target_set : ResolvedTargetSet) (env : Environment) :
    Environment × Except Error Unit × List Dispatch :=
  match find_next_step task_name plan resolved_target_set env with
  | some next_step =>
    let d : Dispatch := ⟨next_step.target_number, next_step.step_number, env⟩
    let (env', r) := run_single_step next_step.step next_step.manifest_dir
      next_step.task_name next_step.step_number next_step.target_number env
    (env', r, [d])
  | none => (env, .ok (), [])

/-- The `.find(...)` of `run_single_target_command` (src/tasks.rs lines
516-530): first target (with index) that is not fully completed and whose
dependencies are completed. -/
def find_ready_incomplete_target (task_name : String) (plan : Plan)
    (target_map : List (String × Nat)) (env : Environment) :
    List Target → Nat → Option (Nat × Target)
  | [], _ => none
  | target :: rest, target_idx =>
    if !is_target_completed task_name target_idx plan env
        && are_target_dependencies_completed task_name target plan target_map env then
      some (target_idx, target)
    else
      find_ready_incomplete_target task_name plan target_map env rest (target_idx + 1)

/-- `run_single_target_command` (src/tasks.rs lines 492-559): pick the
first ready target with incomplete steps and run all of its remaining
steps, stopping at the first failure; succeed doing nothing when no such
target exists. -/
def run_single_target_command (task_name : String) (plan : Plan)
    (resolved_target_set : ResolvedTargetSet) (env : Environment) :
    Environment × Except Error Unit × List Dispatch :=
  let target_map := mk_target_map resolved_target_set.targets
  match find_ready_incomplete_target task_name plan target_map env
      resolved_target_set.targets 0 with
  | none => (env, .ok (), [])
  | some (target_idx, target) =>
    run_steps_from task_name target.manifest_dir target_idx env plan.steps 0

/-- `completed_targets.get(i).is_none_or(|&c| !c)`. -/
def not_marked_completed (completed : List Bool) (i : Nat) : Bool :=
  match completed.get? i with
  | none => true
  | some c => !c

/-- The ready-set computation of one wavefront iteration
(src/tasks.rs lines 600-614). -/
def ready_targets (task_name : String) (plan : Plan)
    (resolved_target_set : ResolvedTargetSet)
    (target_map : List (String × Nat)) (completed : List Bool)
    (env : Environment) : List (Nat × Target) :=
  (enum_from 0 resolved_target_set.targets).filter fun it =>
    not_marked_completed completed it.1
      && are_target_dependencies_completed task_name it.2 plan target_map env

/-- One wavefront batch (src/tasks.rs lines 620-653), executed
sequentially in ready order; each dispatched target runs its remaining
incomplete steps via `run_steps_from` and reports `Ok(target_idx)` or its
first step error.  Distinct targets touch disjoint (target, step) store
keys, so this sequentialization yields the same store and results as the
`buffer_unordered(jobs)` execution for every job limit. -/
def run_batch (task_name : String) (plan : Plan) :
    List (Nat × Target) → Environment →
    Environment × List (Except Error Nat) × List Dispatch
  | [], env => (env, [], [])
  | (target_idx, target) :: rest, env =>
    let (env', r, tr) := run_steps_from task_name target.manifest_dir
      target_idx env plan.steps 0
    let r' : Except Error Nat := r.map fun _ => target_idx
    let (env'', rs, trs) := run_batch task_name plan rest env'
    (env'', r' :: rs, tr ++ trs)

/-- The batch-result processing of one wavefront iteration
(src/tasks.rs lines 654-670): `Ok(i)` marks target `i` completed, an error
aborts the run under fail-fast and is recorded in `has_errors` under
keep-going. -/
def process_results (keep_going : Bool) :
    List (Except Error Nat) → List Bool → Bool →
    Except Error (List Bool × Bool)
  | [], completed, has_errors => .ok (completed, has_errors)
  | .ok target_idx :: rest, completed, has_errors =>
    process_results keep_going rest (completed.set target_idx true) has_errors
  | .error e :: rest, completed, _has_errors =>
    if keep_going then
      process_results keep_going rest completed true
    else
      .error e

/-- The wavefront `loop` of `run_all_targets_command` (src/tasks.rs lines
599-682) with explicit fuel; `none` in the first component models an
invocation that never returns.  After the loop: an unmarked target means
`CircularDependency`, recorded errors mean `SomeStepsFailed`, otherwise
success. -/
def run_all_targets_loop (task_name : String) (plan : Plan)
    (resolved_target_set : ResolvedTargetSet)
    (target_map : List (String × Nat)) (keep_going : Bool) :
    Nat → List Bool → Bool → Environment →
    Option (Environment × Except Error Unit) × List Dispatch
  | 0, _, _, _ => (none, [])
  | fuel + 1, completed, has_errors, env =>
    let ready := ready_targets task_name plan resolved_target_set target_map
      completed env
    if ready.isEmpty then
      if !completed.all (fun c => c) then
        (some (env, .error .CircularDependency), [])
      else if has_errors then
        (some (env, .error .SomeStepsFailed), [])
      else
        (some (env, .ok ()), [])
    else
      let (env', results, tr) := run_batch task_name plan ready env
      match process_results keep_going results completed has_errors with
      | .error e => (some (env', .error e), tr)
      | .ok (completed', has_errors') =>
        let (res, tr') := run_all_targets_loop task_name plan
          resolved_target_set target_map keep_going fuel completed'
          has_errors' env'
        (res, tr ++ tr')

/-- `run_all_targets_command` (src/tasks.rs lines 567-682).  The plan and
resolved target set are the parsed task files; the `jobs` limit does not
appear because the batch is sequentialized (see `run_batch`). -/
def run_all_targets_command (task_name : String) (keep_going : Bool)
    (plan : Plan) (resolved_target_set : ResolvedTargetSet)
    (fuel : Nat) (env : Environment) :
    Option (Environment × Except Error Unit) × List Dispatch :=
  let target_map := mk_target_map resolved_target_set.targets
  let completed := List.replicate resolved_target_set.targets.length false
  run_all_targets_loop task_name plan resolved_target_set target_map
    keep_going fuel completed false env

/-- `Plan::load` (src/plans.rs lines 61-70): when the plan file exists its
parsed content is returned, otherwise the default (empty) plan —
a missing plan name is NOT an error here. -/
def Plan.load (name : String) (env : Environment) : Except Error Plan :=
  match env.plan_files name with
  | some plan => .ok plan
  | none => .ok { steps := [] }

/-- `Plan::save` (src/plans.rs lines 77-88): (over)write the named plan
file.  Serialization and filesystem errors are not modelled. -/
def Plan.save (plan : Plan) (name : String) (env : Environment) :
    Environment × Except Error Unit :=
  ({ env with
     plan_files := fun n => if n = name then some plan else env.plan_files n },
   .ok ())

/-- `load_target_set` (src/target_sets.rs lines 184-195): a missing
target-set file is `TargetSetNotFound`. -/
def load_target_set (name : String) (env : Environment) :
    Except Error TargetSet :=
  match env.target_set_files name with
  | some target_set => .ok target_set
  | none => .error (.TargetSetNotFound name)

/-- `Config::load` (src/lib.rs lines 234-243): the parsed config file, or
the default when absent.  Read/parse errors are not modelled, so the
result is total. -/
def Config.load (env : Environment) : Config :=
  match env.config_file with
  | some config => config
  | none => { workspaces := [], crates := [] }

/-- `enum PlanStepSubCommand` (src/plans.rs) with its parameter structs
flattened into the constructors (plan name, position, step). -/
inductive PlanStepSubCommand
  | Add (name : String) (step : Step)
  | Insert (name : String) (position : Nat) (step : Step)
  | Remove (name : String) (position : Nat)
  | List (name : String)
  deriving DecidableEq, Repr

/-- `plan_step_command` (src/plans.rs lines 257-328).  `List` only prints;
`Add` appends after the executable probe; `Insert` bounds-checks the
1-based position (0 and anything above len+1 are out of bounds), probes,
and inserts; `Remove` bounds-checks (0 and anything above len) and
removes.  Every branch loads via `Plan.load`, which substitutes an empty
plan for a missing file. -/
def plan_step_command (sub_command : PlanStepSubCommand)
    (env : Environment) : Environment × Except Error Unit :=
  match sub_command with
  | .List name =>
    match Plan.load name env with
    | .error e => (env, .error e)
    | .ok _ => (env, .ok ())
  | .Add name step =>
    match Plan.load name env with
    | .error e => (env, .error e)
    | .ok plan =>
      match step with
      | .RunCommand command _ =>
        if !command_is_executable env command then
          (env, .error (.CommandNotFound command))
        else
          Plan.save { steps := plan.steps ++ [step] } name env
      | .ManualStep _ _ =>
        Plan.save { steps := plan.steps ++ [step] } name env
  | .Insert name position step =>
    match Plan.load name env with
    | .error e => (env, .error e)
    | .ok plan =>
      if position > plan.steps.length + 1 || position = 0 then
        (env, .error (.PlanStepOutOfBounds position plan.steps.length))
      else
        match step with
        | .RunCommand command _ =>
          if !command_is_executable env command then
            (env, .error (.CommandNotFound command))
          else
            Plan.save { steps := plan.steps.insertIdx (position - 1) step } name env
        | .ManualStep _ _ =>
          Plan.save { steps := plan.steps.insertIdx (position - 1) step } name env
  | .Remove name position =>
    match Plan.load name env with
    | .error e => (env, .error e)
    | .ok plan =>
      if position > plan.steps.length || position = 0 then
        (env, .error (.PlanStepOutOfBounds position plan.steps.length))
      else
        Plan.save { steps := plan.steps.eraseIdx (position - 1) } name env

/-- Step 1 of `resolve_target_set` (src/target_sets.rs lines 42-76): the
initial ordered candidate manifest directories obtained by filtering the
registry. -/
def initial_manifest_dirs (target_set : TargetSet) (config : Config) :
    List String :=
  match target_set with
  | .Workspaces params =>
    (config.workspaces.filter fun w =>
      !params.no_standalone || !w.is_standalone).map
      fun w => w.manifest_dir
  | .Crates params =>
    let workspace_standalone_map :=
      config.workspaces.map fun w => (w.manifest_dir, w.is_standalone)
    (config.crates.filter fun krate =>
      (match params.ctype with
       | some t => krate.types.contains t
       | none => true)
      && (match params.standalone with
          | some standalone =>
            match workspace_standalone_map.reverse.lookup
                krate.workspace_manifest_dir with
            | some is_standalone => is_standalone == standalone
            | none => false
          | none => true)).map
      fun c => c.manifest_dir

/-- `HashMap::insert`: replace any earlier binding of the key. -/
def hash_insert (m : List (String × α)) (key : String) (value : α) :
    List (String × α) :=
  (m.filter fun p => !(p.1 == key)) ++ [(key, value)]

/-- Step 2 of `resolve_target_set` (src/target_sets.rs lines 81-95):
query the metadata oracle for every candidate and merge all returned
packages into the identity-keyed table and the name-to-identity index
(later inserts win). -/
def collect_packages (oracle : ResolveOracle) :
    List String → List (String × Package) → List (String × String) →
    Except Error (List (String × Package) × List (String × String))
  | [], all_packages, package_name_to_id => .ok (all_packages, package_name_to_id)
  | manifest_dir :: rest, all_packages, package_name_to_id =>
    match oracle.metadata manifest_dir with
    | none => .error (.CargoMetadataError manifest_dir)
    | some packages =>
      let all_packages' := packages.foldl
        (fun m p => hash_insert m p.pid p) all_packages
      let package_name_to_id' := packages.foldl
        (fun m p => hash_insert m p.name p.pid) package_name_to_id
      collect_packages oracle rest all_packages' package_name_to_id'

/-- Step 3 of `resolve_target_set` (src/target_sets.rs lines 101-128):
the `find_map` over the name index locating the candidate's own package
by comparing canonicalized manifest directories; every fallible
sub-operation is turned into `none` (`ok()` in the source). -/
def find_package_id (oracle : ResolveOracle)
    (all_packages : List (String × Package))
    (package_name_to_id : List (String × String)) (manifest_dir : String) :
    Option String :=
  package_name_to_id.findSome? fun it =>
    match all_packages.lookup it.2 with
    | none => none
    | some package =>
      match oracle.parent_dir package.manifest_path with
      | none => none
      | some package_manifest_dir =>
        match oracle.canonicalize package_manifest_dir,
            oracle.canonicalize manifest_dir with
        | some canonical_package_dir, some canonical_dir =>
          if canonical_package_dir == canonical_dir then some it.2 else none
        | _, _ => none

/-- Step 4 of `resolve_target_set` (src/target_sets.rs lines 134-160):
walk the package's declared dependencies; a dependency resolvable through
the name index keeps its canonicalized manifest directory as an edge only
when that directory is one of the initial candidates. -/
def resolve_dependencies (oracle : ResolveOracle)
    (all_packages : List (String × Package))
    (package_name_to_id : List (String × String))
    (target_manifest_paths_set : List String) :
    List String → Except Error (List String)
  | [] => .ok []
  | dep_name :: rest =>
    match package_name_to_id.lookup dep_name with
    | none => resolve_dependencies oracle all_packages package_name_to_id
        target_manifest_paths_set rest
    | some dep_package_id =>
      match all_packages.lookup dep_package_id with
      | none => resolve_dependencies oracle all_packages package_name_to_id
          target_manifest_paths_set rest
      | some dep_package =>
        match oracle.parent_dir dep_package.manifest_path with
        | none => .error (.ManifestPathHasNoParentDir dep_package.manifest_path)
        | some parent =>
          match oracle.canonicalize parent with
          | none => .error
              (.CouldNotDetermineCanonicalManifestPath dep_package.manifest_path)
          | some dep_manifest_path =>
            match resolve_dependencies oracle all_packages package_name_to_id
                target_manifest_paths_set rest with
            | .error e => .error e
            | .ok deps =>
              if target_manifest_paths_set.contains dep_manifest_path then
                .ok (dep_manifest_path :: deps)
              else
                .ok deps

/-- Step 5 of `resolve_target_set` (src/target_sets.rs lines 99-165): one
`Target` per candidate, in candidate order, with its filtered dependency
list. -/
def resolve_targets (oracle : ResolveOracle)
    (all_packages : List (String × Package))
    (package_name_to_id : List (String × String))
    (target_manifest_paths_set : List String) :
    List String → Except Error (List Target)
  | [] => .ok []
  | manifest_dir :: rest =>
    match find_package_id oracle all_packages package_name_to_id manifest_dir with
    | none => .error
        (.FoundNoPackageInCargoMetadataWithGivenManifestPath manifest_dir)
    | some current_package_id =>
      match all_packages.lookup current_package_id with
      | none => .error
          (.FoundNoPackageInCargoMetadataWithGivenManifestPath manifest_dir)
      | some current_package =>
        match resolve_dependencies oracle all_packages package_name_to_id
            target_manifest_paths_set current_package.dependencies with
        | .error e => .error e
        | .ok dependencies =>
          match resolve_targets oracle all_packages package_name_to_id
              target_manifest_paths_set rest with
          | .error e => .error e
          | .ok targets =>
            .ok ({ manifest_dir := manifest_dir,
                   dependencies := dependencies } :: targets)

/-- `resolve_target_set` (src/target_sets.rs lines 38-168). -/
def resolve_target_set (target_set : TargetSet) (config : Config)
    (oracle : ResolveOracle) : Except Error ResolvedTargetSet :=
  let dirs := initial_manifest_dirs target_set config
  match collect_packages oracle dirs [] [] with
  | .error e => .error e
  | .ok (all_packages, package_name_to_id) =>
    match resolve_targets oracle all_packages package_name_to_id dirs dirs with
    | .error e => .error e
    | .ok targets => .ok { targets := targets }

/-- `task_create_command` (src/tasks.rs lines 133-189): validate that the
named plan and target set exist, load the config, load and resolve the
target set, fail when the task already exists, then freeze plan, target
set and resolved target set into the task directory. -/
def task_create_command (task_name plan_name target_set_name : String)
    (env : Environment) : Environment × Except Error Unit :=
  match env.plan_files plan_name with
  | none => (env, .error (.PlanNotFound plan_name))
  | some plan =>
    match env.target_set_files target_set_name with
    | none => (env, .error (.TargetSetNotFound target_set_name))
    | some _ =>
      let config := Config.load env
      match load_target_set target_set_name env with
      | .error e => (env, .error e)
      | .ok target_set =>
        match resolve_target_set target_set config env.resolve_oracle with
        | .error e => (env, .error e)
        | .ok resolved_target_set =>
          match env.task_dirs task_name with
          | some _ => (env, .error (.AlreadyExists ("task " ++ task_name)))
          | none =>
            ({ env with
               task_dirs := fun n =>
                 if n = task_name then
                   some { plan := plan, target_set := target_set,
                          resolved_target_set := resolved_target_set }
                 else
                   env.task_dirs n },
             .ok ())

/-! Concrete instances used to exercise the embedded operations. -/

/-- An empty resolution oracle. -/
def oracle_empty : ResolveOracle :=
  { metadata := fun _ => none
    canonicalize := fun _ => none
    parent_dir := fun _ => none }

/-- A minimal environment: empty stores, empty `PATH`, no executables,
every process exits with code 0, the operator answers nothing. -/
def env0 : Environment :=
  { store := fun _ _ _ => StepDirState.empty
    plan_files := fun _ => none
    target_set_files := fun _ => none
    config_file := none
    task_dirs := fun _ => none
    path_dirs := []
    executable_files := []
    exit_code := fun _ _ _ => some 0
    confirmation := fun _ _ _ => ""
    resolve_oracle := oracle_empty }

/-- Environment holding one stored empty plan named "p". -/
def env_plan_p : Environment :=
  { env0 with plan_files := fun n => if n = "p" then some { steps := [] } else none }

/-- Package `a` at `/a`, depending on `b`, for the resolution instance. -/
def pkg_a : Package :=
  { pid := "ida", name := "a", manifest_path := "/a/Cargo.toml",
    dependencies := ["b"] }

/-- Package `b` at `/b`, no dependencies, for the resolution instance. -/
def pkg_b : Package :=
  { pid := "idb", name := "b", manifest_path := "/b/Cargo.toml",
    dependencies := [] }

/-- Registry with two standalone crates `/a` and `/b`. -/
def cfg_ab : Config :=
  { workspaces := []
    crates := [{ manifest_dir := "/a", workspace_manifest_dir := "/a", types := [] },
               { manifest_dir := "/b", workspace_manifest_dir := "/b", types := [] }] }

/-- The all-crates filter. -/
def ts_all_crates : TargetSet :=
  .Crates { ctype := none, standalone := none }

/-- Resolution oracle for the `/a`, `/b` instance: `cargo metadata` from
either manifest sees both packages, canonicalization is the identity on
the directories involved, and `Path::parent` strips `/Cargo.toml`. -/
def oracle_ab : ResolveOracle :=
  { metadata := fun d =>
      if d = "/a" then some [pkg_a, pkg_b]
      else if d = "/b" then some [pkg_b] else none
    canonicalize := fun s => some s
    parent_dir := fun s =>
      if s = "/a/Cargo.toml" then some "/a"
      else if s = "/b/Cargo.toml" then some "/b" else none }

/-- The resolved target set produced for the `/a`, `/b` instance. -/
def rts_ab : ResolvedTargetSet :=
  { targets := [{ manifest_dir := "/a", dependencies := ["/b"] },
                { manifest_dir := "/b", dependencies := [] }] }

/-- Completion-monotone evolution of environments: every step counted
completed before is still counted completed after. -/
def complete_le (env env' : Environment) : Prop :=
  ∀ (task_name : String) (target_number step_number : Nat) (step : Step),
    is_step_completed task_name target_number step_number step env = true →
    is_step_completed task_name target_number step_number step env' = true

/-- The dependency-ordering property of one dispatch: at the moment the
step was handed to the executor, every in-set dependency of its target
was fully completed. -/
def dispatch_deps_ok (task_name : String) (plan : Plan)
    (rts : ResolvedTargetSet) (d : Dispatch) : Prop :=
  ∀ t, rts.targets.get? d.target_number = some t →
    ∀ dep ∈ t.dependencies, ∀ didx,
      map_get (mk_target_map rts.targets) dep = some didx →
      is_target_completed task_name didx plan d.env = true

/-- Target `i` exists and its in-set dependencies are all completed. -/
def target_ready (task_name : String) (plan : Plan)
    (rts : ResolvedTargetSet) (env : Environment) (i : Nat) : Prop :=
  ∃ t, rts.targets.get? i = some t ∧
    are_target_dependencies_completed task_name t plan
      (mk_target_map rts.targets) env = true

/-- Target `i` has at least one incomplete step of the plan. -/
def target_has_incomplete_step (task_name : String) (plan : Plan)
    (env : Environment) (i : Nat) : Prop :=
  ∃ k step, plan.steps.get? k = some step ∧
    is_step_completed task_name i (k + 1) step env = false

/-- Plan with the single always-failing command `false`. -/
def plan_fail : Plan :=
  { steps := [.RunCommand "false" []] }

/-- Two independent targets `/wa` and `/wb`. -/
def rts_fail : ResolvedTargetSet :=
  { targets := [{ manifest_dir := "/wa", dependencies := [] },
                { manifest_dir := "/wb", dependencies := [] }] }

/-- Environment in which `/bin/false` resolves, the command exits with
code 1 for target 0 and code 0 for target 1, and nothing is recorded
yet: target 0 fails its step deterministically, target 1 succeeds. -/
def env_fail : Environment :=
  { env0 with
    path_dirs := ["/bin"]
    executable_files := ["/bin/false"]
    exit_code := fun _ target_number _ =>
      if target_number = 0 then some 1 else some 0 }

/-- Environment whose store already records success for every step. -/
def env_done : Environment :=
  { env0 with
    store := fun _ _ _ =>
      { dir_exists := true, exit_status := some "0",
        manual_step_confirmed := some "y" } }

/-- Plan with the single always-succeeding command `true`. -/
def plan_ok : Plan :=
  { steps := [.RunCommand "true" []] }

/-- Target `/y` depends on target `/x`. -/
def rts_dep : ResolvedTargetSet :=
  { targets := [{ manifest_dir := "/x", dependencies := [] },
                { manifest_dir := "/y", dependencies := ["/x"] }] }

/-- Environment in which `/bin/true` resolves and every command exits 0. -/
def env_ok : Environment :=
  { env0 with
    path_dirs := ["/bin"]
    executable_files := ["/bin/true"] }

/-! Theorems. -/

/-- C1: a step counts as completed iff its state directory exists and the
recorded outcome indicates success — for `RunCommand` an `exit_status`
file whose trimmed content is `"0"`, for `ManualStep` a
`manual_step_confirmed` file whose trimmed content is the affirmative
`"y"`; an absent record or any other value yields `false`. -/
theorem c1_is_step_completed_iff (task_name : String)
    (target_number step_number : Nat) (step : Step) (env : Environment) :
    is_step_completed task_name target_number step_number step env = true ↔
      ((env.store task_name target_number step_number).dir_exists = true ∧
        match step with
        | .RunCommand _ _ => ∃ content,
            (env.store task_name target_number step_number).exit_status =
              some content ∧ str_trim content = "0"
        | .ManualStep _ _ => ∃ content,
            (env.store task_name target_number step_number).manual_step_confirmed =
              some content ∧ str_trim content = "y") := by
  rcases hst : env.store task_name target_number step_number with ⟨d, e, m⟩
  cases step with
  | RunCommand command args =>
    simp only [is_step_completed, hst]
    cases d <;> cases e <;> simp [beq_iff_eq]
  | ManualStep title instructions =>
    simp only [is_step_completed, hst]
    cases d <;> cases m <;> simp [beq_iff_eq]

/-- C9: a `RunCommand` step whose command does not pass the executable
probe returns `CommandNotFound` after only creating the state directory:
the `exit_status` record is untouched, and (unless a stray success record
already existed) the step remains incomplete. -/
theorem c9_command_not_found (env : Environment) (command : String)
    (args : List String) (manifest_dir task_name : String)
    (step_number target_number : Nat)
    (h : command_is_executable env command = false) :
    run_single_step (.RunCommand command args) manifest_dir task_name
        step_number target_number env =
      (create_state_dir env task_name target_number step_number,
        .error (.CommandNotFound command)) ∧
    ((create_state_dir env task_name target_number step_number).store
        task_name target_number step_number).exit_status =
      (env.store task_name target_number step_number).exit_status ∧
    ((∀ content,
        (env.store task_name target_number step_number).exit_status =
          some content → ¬ str_trim content = "0") →
      is_step_completed task_name target_number step_number
        (.RunCommand command args)
        (create_state_dir env task_name target_number step_number) = false) := by
  have hexec : command_is_executable
      (create_state_dir env task_name target_number step_number) command
        = false := h
  refine ⟨?_, ?_, ?_⟩
  · simp only [run_single_step, hexec, Bool.not_false, if_true]
  · simp [create_state_dir, update_store]
  · intro hbad
    simp only [is_step_completed, create_state_dir, update_store]
    simp only [and_self, if_pos]
    cases he : (env.store task_name target_number step_number).exit_status with
    | none => simp [he]
    | some content => simp [he, hbad content he]

/-- Every dependency list produced by `resolve_dependencies` is drawn
from the candidate set it was given. -/
theorem resolve_dependencies_mem_initial (oracle : ResolveOracle)
    (all_packages : List (String × Package))
    (package_name_to_id : List (String × String))
    (target_manifest_paths_set : List String) :
    ∀ (deps ds : List String),
      resolve_dependencies oracle all_packages package_name_to_id
        target_manifest_paths_set deps = .ok ds →
      ∀ d ∈ ds, d ∈ target_manifest_paths_set := by
  intro deps
  induction deps with
  | nil =>
    intro ds h d hd
    simp only [resolve_dependencies] at h
    cases h
    simp at hd
  | cons dep_name rest ih =>
    intro ds h d hd
    simp only [resolve_dependencies] at h
    split at h
    · exact ih ds h d hd
    · split at h
      · exact ih ds h d hd
      · split at h
        · cases h
        · split at h
          · cases h
          · split at h
            · cases h
            · rename_i deps heq
              split at h
              · rename_i hc
                cases h
                rcases List.mem_cons.mp hd with rfl | hmem
                · exact List.elem_iff.mp hc
                · exact ih _ heq d hmem
              · cases h
                exact ih _ heq d hd

/-- Every target list produced by `resolve_targets` only carries
dependency edges into the candidate set. -/
theorem resolve_targets_mem_initial (oracle : ResolveOracle)
    (all_packages : List (String × Package))
    (package_name_to_id : List (String × String))
    (target_manifest_paths_set : List String) :
    ∀ (dirs : List String) (targets : List Target),
      resolve_targets oracle all_packages package_name_to_id
        target_manifest_paths_set dirs = .ok targets →
      ∀ t ∈ targets, ∀ d ∈ t.dependencies, d ∈ target_manifest_paths_set := by
  intro dirs
  induction dirs with
  | nil =>
    intro targets h t ht
    simp only [resolve_targets] at h
    cases h
    simp at ht
  | cons manifest_dir rest ih =>
    intro targets h t ht d hd
    simp only [resolve_targets] at h
    split at h
    · cases h
    · split at h
      · cases h
      · split at h
        · cases h
        · next hdeps =>
          split at h
          · cases h
          · next hrest =>
            cases h
            rcases List.mem_cons.mp ht with rfl | hmem
            · exact resolve_dependencies_mem_initial oracle all_packages
                package_name_to_id target_manifest_paths_set _ _ hdeps d hd
            · exact ih _ hrest t hmem d hd

/-- C5: every dependency path stored in any target emitted by
`resolve_target_set` is the manifest directory of a member of the initial
candidate list of that resolution — no dependency edge leaves the
resolved set. -/
theorem c5_dependency_closure (target_set : TargetSet) (config : Config)
    (oracle : ResolveOracle) (rts : ResolvedTargetSet)
    (h : resolve_target_set target_set config oracle = .ok rts) :
    ∀ t ∈ rts.targets, ∀ dep ∈ t.dependencies,
      dep ∈ initial_manifest_dirs target_set config := by
  intro t ht dep hdep
  simp only [resolve_target_set] at h
  split at h
  · cases h
  · split at h
    · cases h
    · next htargets =>
      cases h
      exact resolve_targets_mem_initial oracle _ _ _ _ _ htargets t ht dep hdep

/-- Witness for C5: the two-crate instance resolves successfully, `/a`
carries the in-set edge to `/b`, and `/b` is indeed an initial
candidate. -/
theorem c5_dependency_closure_witness :
    resolve_target_set ts_all_crates cfg_ab oracle_ab = .ok rts_ab ∧
    "/b" ∈ initial_manifest_dirs ts_all_crates cfg_ab :=
  ⟨by rfl,
   c5_dependency_closure ts_all_crates cfg_ab oracle_ab rts_ab (by rfl)
     { manifest_dir := "/a", dependencies := ["/b"] } (by decide) "/b" (by decide)⟩

/-- C10 (amended): for a stored plan with `N` steps, removal at position
`p` succeeds exactly when `1 ≤ p ≤ N`, and insertion at position `p`
succeeds exactly when `1 ≤ p ≤ N + 1` AND the inserted step passes the
executable probe when it is a `RunCommand` (a non-resolvable command
fails with `CommandNotFound` even at a valid position); any position
outside the respective range yields `PlanStepOutOfBounds` and leaves the
environment — in particular the stored plan — unchanged. -/
theorem c10_plan_step_position_bounds (env : Environment) (name : String)
    (position : Nat) (step : Step) (plan : Plan)
    (h : env.plan_files name = some plan) :
    ((plan_step_command (.Insert name position step) env).2 = .ok () ↔
      (1 ≤ position ∧ position ≤ plan.steps.length + 1 ∧
        match step with
        | .RunCommand command _ => command_is_executable env command = true
        | .ManualStep _ _ => True)) ∧
    ((plan_step_command (.Remove name position) env).2 = .ok () ↔
      (1 ≤ position ∧ position ≤ plan.steps.length)) ∧
    (¬ (1 ≤ position ∧ position ≤ plan.steps.length + 1) →
      plan_step_command (.Insert name position step) env =
        (env, .error (.PlanStepOutOfBounds position plan.steps.length))) ∧
    (¬ (1 ≤ position ∧ position ≤ plan.steps.length) →
      plan_step_command (.Remove name position) env =
        (env, .error (.PlanStepOutOfBounds position plan.steps.length))) := by
  have hload : Plan.load name env = .ok plan := by simp [Plan.load, h]
  refine ⟨?_, ?_, ?_, ?_⟩
  · by_cases hin : 1 ≤ position ∧ position ≤ plan.steps.length + 1
    · have hc : (position > plan.steps.length + 1 || position = 0) = false := by
        simp only [Bool.or_eq_false_iff, decide_eq_false_iff_not]
        omega
      cases step with
      | RunCommand command args =>
        by_cases hex : command_is_executable env command = true
        · simp [plan_step_command, hload, hc, hex, Plan.save, hin.1, hin.2]
        · simp only [Bool.not_eq_true] at hex
          simp [plan_step_command, hload, hc, hex]
      | ManualStep title instructions =>
        simp [plan_step_command, hload, hc, Plan.save, hin.1, hin.2]
    · have hc : (position > plan.steps.length + 1 || position = 0) = true := by
        simp only [Bool.or_eq_true, decide_eq_true_eq]
        omega
      cases step <;> simp [plan_step_command, hload, hc] <;> omega
  · by_cases hin : 1 ≤ position ∧ position ≤ plan.steps.length
    · have hc : (position > plan.steps.length || position = 0) = false := by
        simp only [Bool.or_eq_false_iff, decide_eq_false_iff_not]
        omega
      simp [plan_step_command, hload, hc, Plan.save, hin.1, hin.2]
    · have hc : (position > plan.steps.length || position = 0) = true := by
        simp only [Bool.or_eq_true, decide_eq_true_eq]
        omega
      simp [plan_step_command, hload, hc]
      omega
  · intro hout
    have hc : (position > plan.steps.length + 1 || position = 0) = true := by
      simp only [Bool.or_eq_true, decide_eq_true_eq]
      omega
    cases step <;> simp [plan_step_command, hload, hc]
  · intro hout
    have hc : (position > plan.steps.length || position = 0) = true := by
      simp only [Bool.or_eq_true, decide_eq_true_eq]
      omega
    simp [plan_step_command, hload, hc]

/-- Counterexample for C10 as stated: inserting a `RunCommand` whose
command is not resolvable fails with `CommandNotFound` even though the
position 1 is within `1 ≤ p ≤ N + 1` for the stored empty plan. -/
theorem c10_counterexample :
    env_plan_p.plan_files "p" = some { steps := [] } ∧
    (1 ≤ 1 ∧ 1 ≤ 0 + 1) ∧
    (plan_step_command (.Insert "p" 1 (.RunCommand "x" [])) env_plan_p).2 =
      .error (.CommandNotFound "x") := by
  refine ⟨rfl, by omega, ?_⟩
  rfl

/-- Witness for C10: removing position 0 from the stored empty plan fails
with the out-of-bounds error and leaves the environment unchanged. -/
theorem c10_plan_step_position_bounds_witness :
    env_plan_p.plan_files "p" = some { steps := [] } ∧
    plan_step_command (.Remove "p" 0) env_plan_p =
      (env_plan_p, .error (.PlanStepOutOfBounds 0 0)) :=
  ⟨rfl,
   (c10_plan_step_position_bounds env_plan_p "p" 0 (.ManualStep "" "")
     { steps := [] } rfl).2.2.2 (by omega)⟩

/-- C8 (amended): loading a named target set that does not exist fails
with `TargetSetNotFound`, and task creation fails with `PlanNotFound` /
`TargetSetNotFound` (and no effect) when its named plan or target set is
missing; but plan step operations on a missing plan name do NOT fail:
`Plan::load` substitutes an implicit empty plan, and a step `Add` then
creates the plan with that single step. -/
theorem c8_lookup_and_implicit_plan (env : Environment)
    (name plan_name target_set_name task_name : String)
    (title instructions : String) :
    (env.target_set_files name = none →
      load_target_set name env = .error (.TargetSetNotFound name)) ∧
    (env.plan_files name = none → Plan.load name env = .ok { steps := [] }) ∧
    (env.plan_files name = none →
      plan_step_command (.Add name (.ManualStep title instructions)) env =
        ({ env with plan_files := fun n =>
            if n = name then some { steps := [.ManualStep title instructions] }
            else env.plan_files n }, .ok ())) ∧
    (env.plan_files plan_name = none →
      task_create_command task_name plan_name target_set_name env =
        (env, .error (.PlanNotFound plan_name))) ∧
    (∀ plan, env.plan_files plan_name = some plan →
      env.target_set_files target_set_name = none →
      task_create_command task_name plan_name target_set_name env =
        (env, .error (.TargetSetNotFound target_set_name))) := by
  refine ⟨?_, ?_, ?_, ?_, ?_⟩
  · intro h
    simp [load_target_set, h]
  · intro h
    simp [Plan.load, h]
  · intro h
    simp [plan_step_command, Plan.load, h, Plan.save]
  · intro h
    simp [task_create_command, h]
  · intro plan hp hts
    simp [task_create_command, hp, hts]

/-- Counterexample for C8 as stated: a plan step `Add` for the
non-existent plan "ghost" succeeds (no not-found error) and creates the
plan out of an implicit empty one. -/
theorem c8_counterexample :
    env0.plan_files "ghost" = none ∧
    (plan_step_command (.Add "ghost" (.ManualStep "t" "i")) env0).2 = .ok () ∧
    (plan_step_command (.Add "ghost" (.ManualStep "t" "i")) env0).1.plan_files
      "ghost" = some { steps := [.ManualStep "t" "i"] } :=
  ⟨rfl, rfl, rfl⟩

/-- Witness for C8: the target-set and task-creation lookup failures at a
concrete empty environment. -/
theorem c8_lookup_and_implicit_plan_witness :
    env0.target_set_files "s" = none ∧
    load_target_set "s" env0 = .error (.TargetSetNotFound "s") ∧
    env0.plan_files "q" = none ∧
    task_create_command "tk" "q" "s" env0 = (env0, .error (.PlanNotFound "q")) :=
  ⟨rfl, (c8_lookup_and_implicit_plan env0 "s" "q" "s" "tk" "t" "i").1 rfl, rfl,
   (c8_lookup_and_implicit_plan env0 "s" "q" "s" "tk" "t" "i").2.2.2.1 rfl⟩

/-- The store after an update, at an arbitrary key. -/
theorem update_store_store (env : Environment) (task_name : String)
    (target_number step_number : Nat) (f : StepDirState → StepDirState)
    (task' : String) (target' step' : Nat) :
    (update_store env task_name target_number step_number f).store task' target' step' =
      if task' = task_name ∧ target' = target_number ∧ step' = step_number then
        f (env.store task' target' step')
      else env.store task' target' step' := rfl

/-- An update leaves every other key of the store unchanged. -/
theorem update_store_frame (env : Environment) (task_name : String)
    (target_number step_number : Nat) (f : StepDirState → StepDirState)
    (task' : String) (target' step' : Nat)
    (h : ¬ (task' = task_name ∧ target' = target_number ∧ step' = step_number)) :
    (update_store env task_name target_number step_number f).store task' target' step' =
      env.store task' target' step' := by
  simp [update_store, h]

/-- Step completion only depends on the store at the step's own key. -/
theorem is_step_completed_congr (task_name : String)
    (target_number step_number : Nat) (step : Step) (env env' : Environment)
    (h : env.store task_name target_number step_number =
      env'.store task_name target_number step_number) :
    is_step_completed task_name target_number step_number step env =
      is_step_completed task_name target_number step_number step env' := by
  simp only [is_step_completed, h]

/-- Completion ignores the payload of a `RunCommand` step. -/
theorem is_step_completed_run_command_payload (task_name : String)
    (target_number step_number : Nat) (c c' : String) (a a' : List String)
    (env : Environment) :
    is_step_completed task_name target_number step_number (.RunCommand c a) env =
      is_step_completed task_name target_number step_number (.RunCommand c' a') env := rfl

/-- Completion ignores the payload of a `ManualStep` step. -/
theorem is_step_completed_manual_payload (task_name : String)
    (target_number step_number : Nat) (t t' i i' : String)
    (env : Environment) :
    is_step_completed task_name target_number step_number (.ManualStep t i) env =
      is_step_completed task_name target_number step_number (.ManualStep t' i') env := rfl

/-- `complete_le` is reflexive. -/
theorem complete_le_refl (env : Environment) : complete_le env env :=
  fun _ _ _ _ h => h

/-- `complete_le` is transitive. -/
theorem complete_le_trans {env₁ env₂ env₃ : Environment}
    (h₁ : complete_le env₁ env₂) (h₂ : complete_le env₂ env₃) :
    complete_le env₁ env₃ :=
  fun t n s st h => h₂ t n s st (h₁ t n s st h)

/-- Creating a state directory never destroys a completion record. -/
theorem complete_le_create (env : Environment) (task_name : String)
    (target_number step_number : Nat) :
    complete_le env (create_state_dir env task_name target_number step_number) := by
  intro t n s st h
  by_cases hk : t = task_name ∧ n = target_number ∧ s = step_number
  · obtain ⟨rfl, rfl, rfl⟩ := hk
    rcases hst : env.store t n s with ⟨d, e, m⟩
    simp only [is_step_completed, create_state_dir, update_store_store, and_self,
      if_true, hst] at h ⊢
    cases d
    · simp at h
    · simpa using h
  · have hfr : (create_state_dir env task_name target_number step_number).store t n s =
        env.store t n s := update_store_frame env task_name target_number step_number _ t n s hk
    rw [is_step_completed_congr t n s st _ env hfr]
    exact h

/-- Writing the `exit_status` record of a step that was not completed
never destroys a completion record. -/
theorem complete_le_write_exit (env : Environment) (task_name : String)
    (target_number step_number : Nat) (c : String) (a : List String)
    (content : String)
    (hinc : is_step_completed task_name target_number step_number
      (.RunCommand c a) env = false) :
    complete_le env
      (write_exit_status (create_state_dir env task_name target_number step_number)
        task_name target_number step_number content) := by
  intro t n s st h
  by_cases hk : t = task_name ∧ n = target_number ∧ s = step_number
  · obtain ⟨rfl, rfl, rfl⟩ := hk
    cases st with
    | RunCommand c' a' =>
      rw [is_step_completed_run_command_payload t n s c' c a' a, hinc] at h
      cases h
    | ManualStep ti ins =>
      rcases hst : env.store t n s with ⟨d, e, m⟩
      simp only [is_step_completed, write_exit_status, create_state_dir,
        update_store_store, and_self, if_true, hst] at h ⊢
      cases d
      · simp at h
      · simpa using h
  · have hfr : (write_exit_status
        (create_state_dir env task_name target_number step_number)
        task_name target_number step_number content).store t n s =
        env.store t n s := by
      simp only [write_exit_status, create_state_dir]
      rw [update_store_frame _ task_name target_number step_number _ t n s hk]
      exact update_store_frame env task_name target_number step_number _ t n s hk
    rw [is_step_completed_congr t n s st _ env hfr]
    exact h

/-- Writing the `manual_step_confirmed` record of a step that was not
completed never destroys a completion record. -/
theorem complete_le_write_manual (env : Environment) (task_name : String)
    (target_number step_number : Nat) (ti ins : String) (content : String)
    (hinc : is_step_completed task_name target_number step_number
      (.ManualStep ti ins) env = false) :
    complete_le env
      (write_manual_step_confirmed
        (create_state_dir env task_name target_number step_number)
        task_name target_number step_number content) := by
  intro t n s st h
  by_cases hk : t = task_name ∧ n = target_number ∧ s = step_number
  · obtain ⟨rfl, rfl, rfl⟩ := hk
    cases st with
    | ManualStep ti' ins' =>
      rw [is_step_completed_manual_payload t n s ti' ti ins' ins, hinc] at h
      cases h
    | RunCommand c' a' =>
      rcases hst : env.store t n s with ⟨d, e, m⟩
      simp only [is_step_completed, write_manual_step_confirmed, create_state_dir,
        update_store_store, and_self, if_true, hst] at h ⊢
      cases d
      · simp at h
      · simpa using h
  · have hfr : (write_manual_step_confirmed
        (create_state_dir env task_name target_number step_number)
        task_name target_number step_number content).store t n s =
        env.store t n s := by
      simp only [write_manual_step_confirmed, create_state_dir]
      rw [update_store_frame _ task_name target_number step_number _ t n s hk]
      exact update_store_frame env task_name target_number step_number _ t n s hk
    rw [is_step_completed_congr t n s st _ env hfr]
    exact h

/-- The environment reached by `run_single_step` on a `RunCommand` is the
bare state directory creation (probe failure) or an `exit_status` write
over it. -/
theorem run_single_step_run_command_env (c : String) (a : List String)
    (manifest_dir task_name : String) (step_number target_number : Nat)
    (env : Environment) :
    (run_single_step (.RunCommand c a) manifest_dir task_name step_number
        target_number env).1 =
      create_state_dir env task_name target_number step_number ∨
    ∃ content, (run_single_step (.RunCommand c a) manifest_dir task_name
        step_number target_number env).1 =
      write_exit_status (create_state_dir env task_name target_number step_number)
        task_name target_number step_number content := by
  simp only [run_single_step]
  split
  · exact Or.inl rfl
  · split
    · exact Or.inr ⟨_, rfl⟩
    · exact Or.inr ⟨_, rfl⟩

/-- The environment reached by `run_single_step` on a `ManualStep` is a
`manual_step_confirmed` write over the state directory creation. -/
theorem run_single_step_manual_env (ti ins : String)
    (manifest_dir task_name : String) (step_number target_number : Nat)
    (env : Environment) :
    ∃ content, (run_single_step (.ManualStep ti ins) manifest_dir task_name
        step_number target_number env).1 =
      write_manual_step_confirmed
        (create_state_dir env task_name target_number step_number)
        task_name target_number step_number content := by
  simp only [run_single_step]
  split
  · exact ⟨_, rfl⟩
  · exact ⟨_, rfl⟩

/-- Running a step that was not completed never destroys a completion
record anywhere in the store. -/
theorem run_single_step_mono (step : Step) (manifest_dir task_name : String)
    (step_number target_number : Nat) (env : Environment)
    (hinc : is_step_completed task_name target_number step_number step env = false) :
    complete_le env (run_single_step step manifest_dir task_name step_number
      target_number env).1 := by
  cases step with
  | RunCommand c a =>
    rcases run_single_step_run_command_env c a manifest_dir task_name
      step_number target_number env with hres | ⟨content, hres⟩
    · rw [hres]
      exact complete_le_create env task_name target_number step_number
    · rw [hres]
      exact complete_le_write_exit env task_name target_number step_number
        c a content hinc
  | ManualStep ti ins =>
    rcases run_single_step_manual_env ti ins manifest_dir task_name
      step_number target_number env with ⟨content, hres⟩
    rw [hres]
    exact complete_le_write_manual env task_name target_number step_number
      ti ins content hinc

/-- `run_single_step` writes only its own (task, target, step) key. -/
theorem run_single_step_frame (step : Step) (manifest_dir task_name : String)
    (step_number target_number : Nat) (env : Environment)
    (t : String) (n s : Nat)
    (h : ¬ (t = task_name ∧ n = target_number ∧ s = step_number)) :
    ((run_single_step step manifest_dir task_name step_number target_number
      env).1).store t n s = env.store t n s := by
  cases step with
  | RunCommand c a =>
    rcases run_single_step_run_command_env c a manifest_dir task_name
      step_number target_number env with hres | ⟨content, hres⟩
    · rw [hres]
      exact update_store_frame env task_name target_number step_number _ t n s h
    · rw [hres]
      simp only [write_exit_status, create_state_dir]
      rw [update_store_frame _ task_name target_number step_number _ t n s h]
      exact update_store_frame env task_name target_number step_number _ t n s h
  | ManualStep ti ins =>
    rcases run_single_step_manual_env ti ins manifest_dir task_name
      step_number target_number env with ⟨content, hres⟩
    rw [hres]
    simp only [write_manual_step_confirmed, create_state_dir]
    rw [update_store_frame _ task_name target_number step_number _ t n s h]
    exact update_store_frame env task_name target_number step_number _ t n s h

/-- `run_single_step` only changes the `store` component. -/
theorem run_single_step_store_shape (step : Step)
    (manifest_dir task_name : String) (step_number target_number : Nat)
    (env : Environment) :
    ∃ f, (run_single_step step manifest_dir task_name step_number target_number
      env).1 = { env with store := f } := by
  cases step with
  | RunCommand c a =>
    rcases run_single_step_run_command_env c a manifest_dir task_name
      step_number target_number env with hres | ⟨content, hres⟩
    · exact ⟨_, hres⟩
    · exact ⟨_, hres⟩
  | ManualStep ti ins =>
    rcases run_single_step_manual_env ti ins manifest_dir task_name
      step_number target_number env with ⟨content, hres⟩
    exact ⟨_, hres⟩

/-- The per-target step loop never destroys a completion record: it only
executes steps after checking that they are incomplete. -/
theorem run_steps_from_mono (task_name manifest_dir : String)
    (target_idx : Nat) :
    ∀ (steps : List Step) (step_idx : Nat) (env : Environment),
      complete_le env
        (run_steps_from task_name manifest_dir target_idx env steps step_idx).1 := by
  intro steps
  induction steps with
  | nil =>
    intro step_idx env
    exact complete_le_refl env
  | cons step rest ih =>
    intro step_idx env
    simp only [run_steps_from]
    split
    · rename_i hguard
      have hinc : is_step_completed task_name target_idx (step_idx + 1) step env
          = false := by
        simpa using hguard
      have hmono := run_single_step_mono step manifest_dir task_name
        (step_idx + 1) target_idx env hinc
      rcases hrun : run_single_step step manifest_dir task_name (step_idx + 1)
        target_idx env with ⟨env', r⟩
      rw [hrun] at hmono
      cases r with
      | error e => exact hmono
      | ok _ =>
        rcases hrest : run_steps_from task_name manifest_dir target_idx env'
          rest (step_idx + 1) with ⟨env'', r'', tr⟩
        have := ih (step_idx + 1) env'
        rw [hrest] at this
        exact complete_le_trans hmono this
    · exact ih (step_idx + 1) env

/-- The per-target step loop writes only keys of its own target. -/
theorem run_steps_from_frame (task_name manifest_dir : String)
    (target_idx : Nat) :
    ∀ (steps : List Step) (step_idx : Nat) (env : Environment)
      (t : String) (n s : Nat), n ≠ target_idx →
      ((run_steps_from task_name manifest_dir target_idx env steps
        step_idx).1).store t n s = env.store t n s := by
  intro steps
  induction steps with
  | nil =>
    intro step_idx env t n s hn
    rfl
  | cons step rest ih =>
    intro step_idx env t n s hn
    simp only [run_steps_from]
    split
    · have hfr := run_single_step_frame step manifest_dir task_name
        (step_idx + 1) target_idx env t n s (by simp [hn])
      rcases hrun : run_single_step step manifest_dir task_name (step_idx + 1)
        target_idx env with ⟨env', r⟩
      rw [hrun] at hfr
      cases r with
      | error e => exact hfr
      | ok _ =>
        rcases hrest : run_steps_from task_name manifest_dir target_idx env'
          rest (step_idx + 1) with ⟨env'', r'', tr⟩
        have := ih (step_idx + 1) env' t n s hn
        rw [hrest] at this
        rw [this]
        exact hfr
    · exact ih (step_idx + 1) env t n s hn

/-- The per-target step loop only changes the `store` component. -/
theorem run_steps_from_store_shape (task_name manifest_dir : String)
    (target_idx : Nat) :
    ∀ (steps : List Step) (step_idx : Nat) (env : Environment),
      ∃ f, (run_steps_from task_name manifest_dir target_idx env steps
        step_idx).1 = { env with store := f } := by
  intro steps
  induction steps with
  | nil =>
    intro step_idx env
    exact ⟨env.store, rfl⟩
  | cons step rest ih =>
    intro step_idx env
    simp only [run_steps_from]
    split
    · obtain ⟨f, hf⟩ := run_single_step_store_shape step manifest_dir task_name
        (step_idx + 1) target_idx env
      rcases hrun : run_single_step step manifest_dir task_name (step_idx + 1)
        target_idx env with ⟨env', r⟩
      rw [hrun] at hf
      cases r with
      | error e => exact ⟨f, hf⟩
      | ok _ =>
        rcases hrest : run_steps_from task_name manifest_dir target_idx env'
          rest (step_idx + 1) with ⟨env'', r'', tr⟩
        obtain ⟨g, hg⟩ := ih (step_idx + 1) env'
        rw [hrest] at hg
        simp only at hf hg
        refine ⟨g, ?_⟩
        show env'' = _
        rw [hg, hf]
    · exact ih (step_idx + 1) env

/-- Every dispatch recorded by the per-target step loop belongs to that
target and happens in an environment at least as completed as the entry
environment. -/
theorem run_steps_from_trace (task_name manifest_dir : String)
    (target_idx : Nat) :
    ∀ (steps : List Step) (step_idx : Nat) (env : Environment),
      ∀ d ∈ (run_steps_from task_name manifest_dir target_idx env steps
        step_idx).2.2,
        d.target_number = target_idx ∧ complete_le env d.env := by
  intro steps
  induction steps with
  | nil =>
    intro step_idx env d hd
    simp [run_steps_from] at hd
  | cons step rest ih =>
    intro step_idx env d hd
    simp only [run_steps_from] at hd
    split at hd
    · rename_i hguard
      have hinc : is_step_completed task_name target_idx (step_idx + 1) step env
          = false := by
        simpa using hguard
      have hmono := run_single_step_mono step manifest_dir task_name
        (step_idx + 1) target_idx env hinc
      rcases hrun : run_single_step step manifest_dir task_name (step_idx + 1)
        target_idx env with ⟨env', r⟩
      rw [hrun] at hd hmono
      cases r with
      | error e =>
        simp only [List.mem_singleton] at hd
        subst hd
        exact ⟨rfl, complete_le_refl env⟩
      | ok _ =>
        rcases hrest : run_steps_from task_name manifest_dir target_idx env'
          rest (step_idx + 1) with ⟨env'', r'', tr⟩
        rw [hrest] at hd
        simp only [List.mem_cons] at hd
        rcases hd with rfl | hd
        · exact ⟨rfl, complete_le_refl env⟩
        · have := ih (step_idx + 1) env' d
          rw [hrest] at this
          obtain ⟨htn, hle⟩ := this hd
          exact ⟨htn, complete_le_trans hmono hle⟩
    · exact ih (step_idx + 1) env d hd

/-- Target completion is monotone along completion-monotone evolution. -/
theorem is_target_completed_mono (task_name : String) (target_idx : Nat)
    (plan : Plan) (env env' : Environment) (hle : complete_le env env')
    (h : is_target_completed task_name target_idx plan env = true) :
    is_target_completed task_name target_idx plan env' = true := by
  simp only [is_target_completed, List.all_eq_true] at h ⊢
  intro it hit
  exact hle _ _ _ _ (h it hit)

/-- Dependency completion is monotone along completion-monotone
evolution. -/
theorem are_target_dependencies_completed_mono (task_name : String)
    (target : Target) (plan : Plan) (target_map : List (String × Nat))
    (env env' : Environment) (hle : complete_le env env')
    (h : are_target_dependencies_completed task_name target plan target_map env
      = true) :
    are_target_dependencies_completed task_name target plan target_map env'
      = true := by
  simp only [are_target_dependencies_completed, List.all_eq_true] at h ⊢
  intro dep hdep
  have := h dep hdep
  cases hget : map_get target_map dep with
  | none => simp [hget]
  | some didx =>
    rw [hget] at this
    simp only [hget]
    exact is_target_completed_mono task_name didx plan env env' hle this

/-- Dependency completion spelled out over the map. -/
theorem are_target_dependencies_completed_iff (task_name : String)
    (target : Target) (plan : Plan) (target_map : List (String × Nat))
    (env : Environment) :
    are_target_dependencies_completed task_name target plan target_map env
        = true ↔
      ∀ dep ∈ target.dependencies, ∀ didx,
        map_get target_map dep = some didx →
        is_target_completed task_name didx plan env = true := by
  simp only [are_target_dependencies_completed, List.all_eq_true]
  constructor
  · intro h dep hdep didx hget
    have := h dep hdep
    rw [hget] at this
    exact this
  · intro h dep hdep
    cases hget : map_get target_map dep with
    | none => simp
    | some didx => exact h dep hdep didx hget

/-- Membership in an enumerated list is indexed access. -/
theorem enum_from_mem_iff {α : Type} (l : List α) :
    ∀ (n i : Nat) (a : α),
      (i, a) ∈ enum_from n l ↔ ∃ k, i = n + k ∧ l.get? k = some a := by
  induction l with
  | nil =>
    intro n i a
    simp [enum_from]
  | cons hd tl ih =>
    intro n i a
    simp only [enum_from, List.mem_cons]
    constructor
    · rintro (h | h)
      · obtain ⟨rfl, rfl⟩ := Prod.mk.injEq .. ▸ h
        rcases h with ⟨⟩
        exact ⟨0, by omega, rfl⟩
      · obtain ⟨k, hk, hget⟩ := (ih (n + 1) i a).mp h
        exact ⟨k + 1, by omega, by simpa using hget⟩
    · rintro ⟨k, rfl, hget⟩
      cases k with
      | zero =>
        left
        simp only [List.get?_cons_zero, Option.some.injEq] at hget
        simp [hget]
      | succ k =>
        right
        refine (ih (n + 1) _ a).mpr ⟨k, by omega, ?_⟩
        simpa using hget

/-- A successful association lookup is a membership. -/
theorem lookup_mem {β : Type} :
    ∀ (l : List (String × β)) (k : String) (v : β),
      l.lookup k = some v → (k, v) ∈ l := by
  intro l
  induction l with
  | nil =>
    intro k v h
    simp [List.lookup] at h
  | cons hd tl ih =>
    intro k v h
    rcases hd with ⟨a, b⟩
    simp only [List.lookup] at h
    cases hk : (k == a) with
    | true =>
      rw [hk] at h
      cases h
      have hka : k = a := by simpa using hk
      subst hka
      exact List.mem_cons_self _ _
    | false =>
      rw [hk] at h
      exact List.mem_cons_of_mem _ (ih k v h)

/-- A hit in the target map points at an existing target index. -/
theorem map_get_mk_target_map (targets : List Target) (dep : String)
    (didx : Nat) (h : map_get (mk_target_map targets) dep = some didx) :
    ∃ t, targets.get? didx = some t := by
  have hmem : (dep, didx) ∈ (mk_target_map targets).reverse := lookup_mem _ _ _ h
  rw [List.mem_reverse] at hmem
  simp only [mk_target_map, List.mem_map] at hmem
  obtain ⟨it, hit, heq⟩ := hmem
  rcases it with ⟨i, t⟩
  simp only [Prod.mk.injEq] at heq
  obtain ⟨k, hk, hget⟩ := (enum_from_mem_iff targets 0 i t).mp hit
  refine ⟨t, ?_⟩
  have : didx = k := by omega
  rw [this]
  exact hget

/-- A wavefront batch never destroys a completion record. -/
theorem run_batch_mono (task_name : String) (plan : Plan) :
    ∀ (ready : List (Nat × Target)) (env : Environment),
      complete_le env (run_batch task_name plan ready env).1 := by
  intro ready
  induction ready with
  | nil =>
    intro env
    exact complete_le_refl env
  | cons it rest ih =>
    intro env
    rcases it with ⟨target_idx, target⟩
    simp only [run_batch]
    have h1 := run_steps_from_mono task_name target.manifest_dir target_idx
      plan.steps 0 env
    rcases hsteps : run_steps_from task_name target.manifest_dir target_idx env
      plan.steps 0 with ⟨env', r, tr⟩
    rw [hsteps] at h1
    have h2 := ih env'
    rcases hrest : run_batch task_name plan rest env' with ⟨env'', rs, trs⟩
    rw [hrest] at h2
    exact complete_le_trans h1 h2

/-- Every dispatch of a wavefront batch belongs to a ready target and
happens in an environment at least as completed as the batch entry. -/
theorem run_batch_trace (task_name : String) (plan : Plan) :
    ∀ (ready : List (Nat × Target)) (env : Environment),
      ∀ d ∈ (run_batch task_name plan ready env).2.2,
        (∃ t, (d.target_number, t) ∈ ready) ∧ complete_le env d.env := by
  intro ready
  induction ready with
  | nil =>
    intro env d hd
    simp [run_batch] at hd
  | cons it rest ih =>
    intro env d hd
    rcases it with ⟨target_idx, target⟩
    simp only [run_batch] at hd
    have h1 := run_steps_from_mono task_name target.manifest_dir target_idx
      plan.steps 0 env
    have htr := run_steps_from_trace task_name target.manifest_dir target_idx
      plan.steps 0 env
    rcases hsteps : run_steps_from task_name target.manifest_dir target_idx env
      plan.steps 0 with ⟨env', r, tr⟩
    rw [hsteps] at h1 htr hd
    rcases hrest : run_batch task_name plan rest env' with ⟨env'', rs, trs⟩
    rw [hrest] at hd
    simp only [List.mem_append] at hd
    rcases hd with hd | hd
    · obtain ⟨htn, hle⟩ := htr d hd
      exact ⟨⟨target, by rw [htn]; exact List.mem_cons_self _ _⟩, hle⟩
    · have := ih env' d
      rw [hrest] at this
      obtain ⟨⟨t, ht⟩, hle⟩ := this hd
      exact ⟨⟨t, List.mem_cons_of_mem _ ht⟩, complete_le_trans h1 hle⟩

/-- A dispatch at an environment above the wavefront in which its target
was ready satisfies the dependency-ordering property. -/
theorem dispatch_deps_of_ready (task_name : String) (plan : Plan)
    (rts : ResolvedTargetSet) (completed : List Bool) (env : Environment)
    (d : Dispatch) (hle : complete_le env d.env)
    (hmem : ∃ t, (d.target_number, t) ∈ ready_targets task_name plan rts
      (mk_target_map rts.targets) completed env) :
    dispatch_deps_ok task_name plan rts d := by
  obtain ⟨t, hmem⟩ := hmem
  simp only [ready_targets, List.mem_filter] at hmem
  obtain ⟨henum, hpred⟩ := hmem
  obtain ⟨k, hk, hget⟩ := (enum_from_mem_iff rts.targets 0 d.target_number t).mp henum
  simp only [Bool.and_eq_true] at hpred
  intro t' hget' dep hdep didx hmap
  have hkk : d.target_number = k := by omega
  rw [hkk, hget] at hget'
  cases hget'
  have hdeps := hpred.2
  have := (are_target_dependencies_completed_iff task_name t plan
    (mk_target_map rts.targets) env).mp hdeps dep hdep didx hmap
  exact is_target_completed_mono task_name didx plan env d.env hle this

/-- Every dispatch of the wavefront loop satisfies the
dependency-ordering property. -/
theorem run_all_targets_loop_deps (task_name : String) (plan : Plan)
    (rts : ResolvedTargetSet) (keep_going : Bool) :
    ∀ (fuel : Nat) (completed : List Bool) (he : Bool) (env : Environment),
      ∀ d ∈ (run_all_targets_loop task_name plan rts (mk_target_map rts.targets)
        keep_going fuel completed he env).2,
        dispatch_deps_ok task_name plan rts d := by
  intro fuel
  induction fuel with
  | zero =>
    intro completed he env d hd
    simp [run_all_targets_loop] at hd
  | succ n ih =>
    intro completed he env d hd
    simp only [run_all_targets_loop] at hd
    split at hd
    · split at hd
      · simp at hd
      · split at hd <;> simp at hd
    · have hbm := run_batch_mono task_name plan
        (ready_targets task_name plan rts (mk_target_map rts.targets) completed env) env
      have hbt := run_batch_trace task_name plan
        (ready_targets task_name plan rts (mk_target_map rts.targets) completed env) env
      rcases hbatch : run_batch task_name plan
        (ready_targets task_name plan rts (mk_target_map rts.targets) completed env)
        env with ⟨env', results, tr⟩
      rw [hbatch] at hbm hbt hd
      split at hd
      · obtain ⟨hmem, hle⟩ := hbt d hd
        exact dispatch_deps_of_ready task_name plan rts completed env d hle hmem
      · rename_i completed' he' hproc
        rcases hloop : run_all_targets_loop task_name plan rts
          (mk_target_map rts.targets) keep_going n completed' he' env'
          with ⟨res, tr'⟩
        rw [hloop] at hd
        simp only [List.mem_append] at hd
        rcases hd with hd | hd
        · obtain ⟨hmem, hle⟩ := hbt d hd
          exact dispatch_deps_of_ready task_name plan rts completed env d hle hmem
        · have := ih completed' he' env' d
          rw [hloop] at this
          exact this hd

/-- What a successful inner search of `find_next_step` means: the found
step is incomplete, and every earlier step of the plan is completed. -/
theorem find_first_incomplete_step_some (task_name : String) (target_idx : Nat)
    (env : Environment) :
    ∀ (steps : List Step) (step_idx sn : Nat) (st : Step),
      find_first_incomplete_step task_name target_idx env steps step_idx =
        some (sn, st) →
      ∃ k, steps.get? k = some st ∧ sn = step_idx + k + 1 ∧
        is_step_completed task_name target_idx sn st env = false ∧
        ∀ j st', j < k → steps.get? j = some st' →
          is_step_completed task_name target_idx (step_idx + j + 1) st' env
            = true := by
  intro steps
  induction steps with
  | nil =>
    intro step_idx sn st h
    simp [find_first_incomplete_step] at h
  | cons step rest ih =>
    intro step_idx sn st h
    simp only [find_first_incomplete_step] at h
    split at h
    · rename_i hguard
      cases h
      refine ⟨0, rfl, by omega, by simpa using hguard, ?_⟩
      intro j st' hj hget'
      exact absurd hj (Nat.not_lt_zero j)
    · rename_i hguard
      have hcomp : is_step_completed task_name target_idx (step_idx + 1) step env
          = true := by
        simpa using hguard
      obtain ⟨k, hget, hsn, hinc, hearlier⟩ := ih (step_idx + 1) sn st h
      refine ⟨k + 1, by simpa using hget, by omega, hinc, ?_⟩
      intro j st' hj hget'
      cases j with
      | zero =>
        simp only [List.get?_cons_zero, Option.some.injEq] at hget'
        subst hget'
        exact hcomp
      | succ j =>
        have := hearlier j st' (by omega) (by simpa using hget')
        have heq : step_idx + 1 + j + 1 = step_idx + (j + 1) + 1 := by omega
        rw [heq] at this
        exact this

/-- A failed inner search of `find_next_step` means every step of the
plan is completed for that target. -/
theorem find_first_incomplete_step_none (task_name : String) (target_idx : Nat)
    (env : Environment) :
    ∀ (steps : List Step) (step_idx : Nat),
      find_first_incomplete_step task_name target_idx env steps step_idx = none →
      ∀ k st, steps.get? k = some st →
        is_step_completed task_name target_idx (step_idx + k + 1) st env
          = true := by
  intro steps
  induction steps with
  | nil =>
    intro step_idx h k st hget
    simp at hget
  | cons step rest ih =>
    intro step_idx h k st hget
    simp only [find_first_incomplete_step] at h
    split at h
    · cases h
    · rename_i hguard
      have hcomp : is_step_completed task_name target_idx (step_idx + 1) step env
          = true := by
        simpa using hguard
      cases k with
      | zero =>
        simp only [List.get?_cons_zero, Option.some.injEq] at hget
        subst hget
        exact hcomp
      | succ k =>
        have := ih (step_idx + 1) h k st (by simpa using hget)
        have heq : step_idx + 1 + k + 1 = step_idx + (k + 1) + 1 := by omega
        rw [heq] at this
        exact this

/-- What a successful outer search of `find_next_step` means: the found
target exists, its dependencies are completed, its first incomplete step
was found, and every earlier target either has unmet dependencies or no
incomplete step. -/
theorem find_next_step_aux_some (task_name : String) (plan : Plan)
    (target_map : List (String × Nat)) (env : Environment) :
    ∀ (targets : List Target) (idx : Nat) (ns : NextStep),
      find_next_step_aux task_name plan target_map env targets idx = some ns →
      ∃ k t, targets.get? k = some t ∧ ns.target_number = idx + k ∧
        ns.manifest_dir = t.manifest_dir ∧ ns.task_name = task_name ∧
        are_target_dependencies_completed task_name t plan target_map env
          = true ∧
        find_first_incomplete_step task_name ns.target_number env plan.steps 0 =
          some (ns.step_number, ns.step) ∧
        ∀ j t', j < k → targets.get? j = some t' →
          are_target_dependencies_completed task_name t' plan target_map env
            = false ∨
          find_first_incomplete_step task_name (idx + j) env plan.steps 0
            = none := by
  intro targets
  induction targets with
  | nil =>
    intro idx ns h
    simp [find_next_step_aux] at h
  | cons target rest ih =>
    intro idx ns h
    simp only [find_next_step_aux] at h
    split at h
    · rename_i hdeps
      split at h
      · rename_i sn st hfis
        cases h
        refine ⟨0, target, rfl, rfl, rfl, rfl, hdeps, hfis, ?_⟩
        intro j t' hj hget'
        exact absurd hj (Nat.not_lt_zero j)
      · rename_i hfis_none
        obtain ⟨k, t, hget, htn, hmd, htk, hdeps', hfis', hearlier⟩ :=
          ih (idx + 1) ns h
        refine ⟨k + 1, t, by simpa using hget, by omega, hmd, htk, hdeps',
          hfis', ?_⟩
        intro j t' hj hget'
        cases j with
        | zero =>
          right
          exact hfis_none
        | succ j =>
          have := hearlier j t' (by omega) (by simpa using hget')
          have heq : idx + 1 + j = idx + (j + 1) := by omega
          rw [heq] at this
          exact this
    · rename_i hdeps_false
      obtain ⟨k, t, hget, htn, hmd, htk, hdeps', hfis', hearlier⟩ :=
        ih (idx + 1) ns h
      refine ⟨k + 1, t, by simpa using hget, by omega, hmd, htk, hdeps',
        hfis', ?_⟩
      intro j t' hj hget'
      cases j with
      | zero =>
        left
        simp only [List.get?_cons_zero, Option.some.injEq] at hget'
        subst hget'
        simpa using hdeps_false
      | succ j =>
        have := hearlier j t' (by omega) (by simpa using hget')
        have heq : idx + 1 + j = idx + (j + 1) := by omega
        rw [heq] at this
        exact this

/-- A failed outer search of `find_next_step` means every target either
has unmet dependencies or no incomplete step. -/
theorem find_next_step_aux_none (task_name : String) (plan : Plan)
    (target_map : List (String × Nat)) (env : Environment) :
    ∀ (targets : List Target) (idx : Nat),
      find_next_step_aux task_name plan target_map env targets idx = none →
      ∀ k t, targets.get? k = some t →
        are_target_dependencies_completed task_name t plan target_map env
          = false ∨
        find_first_incomplete_step task_name (idx + k) env plan.steps 0
          = none := by
  intro targets
  induction targets with
  | nil =>
    intro idx h k t hget
    simp at hget
  | cons target rest ih =>
    intro idx h k t hget
    simp only [find_next_step_aux] at h
    split at h
    · split at h
      · cases h
      · rename_i hfis_none
        cases k with
        | zero =>
          right
          exact hfis_none
        | succ k =>
          have := ih (idx + 1) h k t (by simpa using hget)
          have heq : idx + 1 + k = idx + (k + 1) := by omega
          rw [heq] at this
          exact this
    · rename_i hdeps_false
      cases k with
      | zero =>
        left
        simp only [List.get?_cons_zero, Option.some.injEq] at hget
        subst hget
        simpa using hdeps_false
      | succ k =>
        have := ih (idx + 1) h k t (by simpa using hget)
        have heq : idx + 1 + k = idx + (k + 1) := by omega
        rw [heq] at this
        exact this

/-- What a successful target search of `run_single_target_command`
means: the target exists, is not completed, and has completed
dependencies. -/
theorem find_ready_incomplete_target_some (task_name : String) (plan : Plan)
    (target_map : List (String × Nat)) (env : Environment) :
    ∀ (targets : List Target) (idx tidx : Nat) (t : Target),
      find_ready_incomplete_target task_name plan target_map env targets idx =
        some (tidx, t) →
      ∃ k, targets.get? k = some t ∧ tidx = idx + k ∧
        is_target_completed task_name tidx plan env = false ∧
        are_target_dependencies_completed task_name t plan target_map env
          = true := by
  intro targets
  induction targets with
  | nil =>
    intro idx tidx t h
    simp [find_ready_incomplete_target] at h
  | cons target rest ih =>
    intro idx tidx t h
    simp only [find_ready_incomplete_target] at h
    split at h
    · rename_i hguard
      cases h
      simp only [Bool.and_eq_true, Bool.not_eq_true'] at hguard
      exact ⟨0, rfl, by omega, hguard.1, hguard.2⟩
    · obtain ⟨k, hget, htidx, hcomp, hdeps⟩ := ih (idx + 1) tidx t h
      exact ⟨k + 1, by simpa using hget, by omega, hcomp, hdeps⟩

/-- C4: no scheduler entry point — single step, single target, or all
targets — ever dispatches a step of a target while an in-set dependency
of that target is incomplete: at every recorded dispatch, every
dependency present in the target map is fully completed in the
environment at dispatch time. -/
theorem c4_dependency_ordering (task_name : String) (plan : Plan)
    (rts : ResolvedTargetSet) (env : Environment) (keep_going : Bool)
    (fuel : Nat) :
    (∀ d ∈ (run_single_step_command task_name plan rts env).2.2,
      dispatch_deps_ok task_name plan rts d) ∧
    (∀ d ∈ (run_single_target_command task_name plan rts env).2.2,
      dispatch_deps_ok task_name plan rts d) ∧
    (∀ d ∈ (run_all_targets_command task_name keep_going plan rts fuel env).2,
      dispatch_deps_ok task_name plan rts d) := by
  refine ⟨?_, ?_, ?_⟩
  · intro d hd
    simp only [run_single_step_command] at hd
    split at hd
    · rename_i ns hns
      rcases hrun : run_single_step ns.step ns.manifest_dir ns.task_name
        ns.step_number ns.target_number env with ⟨env', r⟩
      rw [hrun] at hd
      simp only [List.mem_singleton] at hd
      subst hd
      obtain ⟨k, t, hget, htn, hmd, htk, hdeps, hfis, hearlier⟩ :=
        find_next_step_aux_some task_name plan (mk_target_map rts.targets) env
          rts.targets 0 ns hns
      intro t' hget' dep hdep didx hmap
      have hzk : ns.target_number = k := by omega
      rw [hzk, hget] at hget'
      cases hget'
      exact (are_target_dependencies_completed_iff task_name t plan
        (mk_target_map rts.targets) env).mp hdeps dep hdep didx hmap
    · simp at hd
  · intro d hd
    simp only [run_single_target_command] at hd
    split at hd
    · simp at hd
    · rename_i tidx t hfind
      obtain ⟨k, hget, htidx, hcomp, hdeps⟩ :=
        find_ready_incomplete_target_some task_name plan
          (mk_target_map rts.targets) env rts.targets 0 tidx t hfind
      obtain ⟨htn, hle⟩ := run_steps_from_trace task_name t.manifest_dir tidx
        plan.steps 0 env d hd
      intro t' hget' dep hdep didx hmap
      have hzk : d.target_number = tidx := htn
      rw [hzk] at hget'
      have hzk2 : tidx = k := by omega
      rw [hzk2, hget] at hget'
      cases hget'
      have := (are_target_dependencies_completed_iff task_name t plan
        (mk_target_map rts.targets) env).mp hdeps dep hdep didx hmap
      exact is_target_completed_mono task_name didx plan env d.env hle this
  · intro d hd
    simp only [run_all_targets_command] at hd
    exact run_all_targets_loop_deps task_name plan rts keep_going fuel
      (List.replicate rts.targets.length false) false env d hd

/-- Witness for C4: in the run over targets `/x` and `/y` (where `/y`
depends on `/x`), the second recorded dispatch is `/y`'s step, and at
that dispatch `/x` is fully completed. -/
theorem c4_dependency_ordering_witness :
    (run_all_targets_command "t" false plan_ok rts_dep 3 env_ok).2.length = 2 ∧
    is_target_completed "t" 0 plan_ok
      (((run_all_targets_command "t" false plan_ok rts_dep 3 env_ok).2.get
        ⟨1, by decide⟩).env) = true := by
  refine ⟨by decide, ?_⟩
  have h := (c4_dependency_ordering "t" plan_ok rts_dep env_ok false 3).2.2
    ((run_all_targets_command "t" false plan_ok rts_dep 3 env_ok).2.get
      ⟨1, by decide⟩)
    (List.get_mem _ _ _)
  exact h { manifest_dir := "/y", dependencies := ["/x"] } (by decide) "/x"
    (by decide) 0 (by decide)

/-- C6: the single-step run selects the first target (in stored order)
whose in-set dependencies are completed and which has an incomplete
step, and executes exactly that target's first incomplete step (in plan
order) and nothing else; when no such target exists it executes nothing
and succeeds. -/
theorem c6_single_step_selection (task_name : String) (plan : Plan)
    (rts : ResolvedTargetSet) (env : Environment) :
    (∀ ns, find_next_step task_name plan rts env = some ns →
      target_ready task_name plan rts env ns.target_number ∧
      target_has_incomplete_step task_name plan env ns.target_number ∧
      plan.steps.get? (ns.step_number - 1) = some ns.step ∧
      is_step_completed task_name ns.target_number ns.step_number ns.step env
        = false ∧
      (∀ j st, plan.steps.get? j = some st → j + 1 < ns.step_number →
        is_step_completed task_name ns.target_number (j + 1) st env = true) ∧
      (∀ i < ns.target_number,
        ¬ (target_ready task_name plan rts env i ∧
          target_has_incomplete_step task_name plan env i)) ∧
      (run_single_step_command task_name plan rts env).2.2.map
        (fun d => (d.target_number, d.step_number)) =
          [(ns.target_number, ns.step_number)] ∧
      (run_single_step_command task_name plan rts env).2.1 =
        (run_single_step ns.step ns.manifest_dir task_name ns.step_number
          ns.target_number env).2) ∧
    (find_next_step task_name plan rts env = none →
      (∀ i, ¬ (target_ready task_name plan rts env i ∧
        target_has_incomplete_step task_name plan env i)) ∧
      run_single_step_command task_name plan rts env = (env, .ok (), [])) := by
  constructor
  · intro ns hns
    obtain ⟨k, t, hget, htn, hmd, htk, hdeps, hfis, hearlier⟩ :=
      find_next_step_aux_some task_name plan (mk_target_map rts.targets) env
        rts.targets 0 ns hns
    have hzk : ns.target_number = k := by omega
    obtain ⟨k', hget', hsn, hinc, hsteps_earlier⟩ :=
      find_first_incomplete_step_some task_name ns.target_number env
        plan.steps 0 ns.step_number ns.step hfis
    have hsn' : ns.step_number = k' + 1 := by omega
    refine ⟨?_, ?_, ?_, hinc, ?_, ?_, ?_, ?_⟩
    · exact ⟨t, by rw [hzk]; exact hget, hdeps⟩
    · exact ⟨k', ns.step, hget', by rw [hsn'] at hinc; exact hinc⟩
    · have : ns.step_number - 1 = k' := by omega
      rw [this]
      exact hget'
    · intro j st hgetj hj
      have := hsteps_earlier j st (by omega) hgetj
      have heq : 0 + j + 1 = j + 1 := by omega
      rw [heq] at this
      exact this
    · intro i hi
      rintro ⟨⟨t', hget', hdeps'⟩, ⟨k'', st'', hget'', hinc''⟩⟩
      have hik : i < k := by omega
      have := hearlier i t' hik hget'
      rcases this with hdf | hfn
      · rw [hdeps'] at hdf
        cases hdf
      · have := find_first_incomplete_step_none task_name (0 + i) env
          plan.steps 0 hfn k'' st'' hget''
        rw [Nat.zero_add] at this
        have heq : 0 + k'' + 1 = k'' + 1 := by omega
        rw [heq] at this
        rw [this] at hinc''
        cases hinc''
    · simp only [run_single_step_command, hns]
      rcases hrun : run_single_step ns.step ns.manifest_dir ns.task_name
        ns.step_number ns.target_number env with ⟨env', r⟩
      simp
    · simp only [run_single_step_command, hns]
      rcases hrun : run_single_step ns.step ns.manifest_dir ns.task_name
        ns.step_number ns.target_number env with ⟨env', r⟩
      rw [htk] at hrun
      rw [hrun]
  · intro hnone
    constructor
    · intro i
      rintro ⟨⟨t, hget, hdeps⟩, ⟨k'', st'', hget'', hinc''⟩⟩
      have := find_next_step_aux_none task_name plan (mk_target_map rts.targets)
        env rts.targets 0 hnone i t hget
      rcases this with hdf | hfn
      · rw [hdeps] at hdf
        cases hdf
      · have := find_first_incomplete_step_none task_name (0 + i) env
          plan.steps 0 hfn k'' st'' hget''
        rw [Nat.zero_add] at this
        have heq : 0 + k'' + 1 = k'' + 1 := by omega
        rw [heq] at this
        rw [this] at hinc''
        cases hinc''
    · simp only [run_single_step_command, hnone]

/-- Witness for C6: on the two-target instance with nothing recorded,
the single-step run picks target 0's step 1 and dispatches exactly it. -/
theorem c6_single_step_selection_witness :
    find_next_step "t" plan_fail rts_fail env_fail =
      some { step := .RunCommand "false" [], manifest_dir := "/wa",
             task_name := "t", step_number := 1, target_number := 0 } ∧
    (run_single_step_command "t" plan_fail rts_fail env_fail).2.2.map
      (fun d => (d.target_number, d.step_number)) = [(0, 1)] := by
  refine ⟨by decide, ?_⟩
  exact ((c6_single_step_selection "t" plan_fail rts_fail env_fail).1
    { step := .RunCommand "false" [], manifest_dir := "/wa",
      task_name := "t", step_number := 1, target_number := 0 }
    (by decide)).2.2.2.2.2.2.1

/-- A completed target yields completion of each of its plan steps. -/
theorem is_target_completed_get (task_name : String) (target_idx : Nat)
    (plan : Plan) (env : Environment)
    (h : is_target_completed task_name target_idx plan env = true) :
    ∀ k st, plan.steps.get? k = some st →
      is_step_completed task_name target_idx (k + 1) st env = true := by
  intro k st hget
  simp only [is_target_completed, List.all_eq_true] at h
  have hmem : (k, st) ∈ enum_from 0 plan.steps :=
    (enum_from_mem_iff plan.steps 0 k st).mpr ⟨k, by omega, hget⟩
  exact h (k, st) hmem

/-- The per-target step loop does nothing when every step is already
completed. -/
theorem run_steps_from_all_complete (task_name manifest_dir : String)
    (target_idx : Nat) :
    ∀ (steps : List Step) (step_idx : Nat) (env : Environment),
      (∀ k st, steps.get? k = some st →
        is_step_completed task_name target_idx (step_idx + k + 1) st env
          = true) →
      run_steps_from task_name manifest_dir target_idx env steps step_idx =
        (env, .ok (), []) := by
  intro steps
  induction steps with
  | nil =>
    intro step_idx env h
    rfl
  | cons step rest ih =>
    intro step_idx env h
    have hhead : is_step_completed task_name target_idx (step_idx + 1) step env
        = true := h 0 step rfl
    simp only [run_steps_from, hhead, Bool.not_true]
    simp only [Bool.false_eq_true, if_false]
    apply ih (step_idx + 1) env
    intro k st hget
    have := h (k + 1) st (by simpa using hget)
    have heq : step_idx + (k + 1) + 1 = step_idx + 1 + k + 1 := by omega
    rw [heq] at this
    exact this

/-- A wavefront batch over fully-completed targets does nothing and
reports every target as ok. -/
theorem run_batch_all_complete (task_name : String) (plan : Plan) :
    ∀ (ready : List (Nat × Target)) (env : Environment),
      (∀ it ∈ ready, is_target_completed task_name it.1 plan env = true) →
      run_batch task_name plan ready env =
        (env, ready.map (fun it => Except.ok it.1), []) := by
  intro ready
  induction ready with
  | nil =>
    intro env h
    rfl
  | cons it rest ih =>
    intro env h
    rcases it with ⟨target_idx, target⟩
    have hsteps : run_steps_from task_name target.manifest_dir target_idx env
        plan.steps 0 = (env, .ok (), []) := by
      apply run_steps_from_all_complete
      intro k st hget
      have := is_target_completed_get task_name target_idx plan env
        (h (target_idx, target) (List.mem_cons_self _ _)) k st hget
      have heq : 0 + k + 1 = k + 1 := by omega
      rw [heq]
      exact this
    simp only [run_batch, hsteps]
    rw [ih env fun it hit => h it (List.mem_cons_of_mem _ hit)]
    rfl

/-- Processing a list of ok results marks exactly those targets. -/
theorem process_results_all_ok (keep_going : Bool) :
    ∀ (its : List (Nat × Target)) (completed : List Bool) (he : Bool),
      process_results keep_going (its.map (fun it => Except.ok it.1)) completed
        he = .ok (its.foldl (fun c it => c.set it.1 true) completed, he) := by
  intro its
  induction its with
  | nil =>
    intro completed he
    rfl
  | cons it rest ih =>
    intro completed he
    simp only [List.map_cons, process_results, List.foldl_cons]
    exact ih (completed.set it.1 true) he

/-- Marking targets preserves the length of the bookkeeping list. -/
theorem foldl_set_length :
    ∀ (its : List (Nat × Target)) (c : List Bool),
      (its.foldl (fun acc it => acc.set it.1 true) c).length = c.length := by
  intro its
  induction its with
  | nil =>
    intro c
    rfl
  | cons it rest ih =>
    intro c
    simp only [List.foldl_cons]
    rw [ih (c.set it.1 true)]
    exact List.length_set c it.1 true

/-- After marking, an index that was already true or is marked reads
true. -/
theorem foldl_set_true_get :
    ∀ (its : List (Nat × Target)) (c : List Bool) (i : Nat), i < c.length →
      (c.get? i = some true ∨ ∃ it ∈ its, it.1 = i) →
      (its.foldl (fun acc it => acc.set it.1 true) c).get? i = some true := by
  intro its
  induction its with
  | nil =>
    intro c i hi h
    rcases h with h | h
    · exact h
    · simp at h
  | cons it rest ih =>
    intro c i hi h
    simp only [List.foldl_cons]
    apply ih (c.set it.1 true) i (by simpa using hi)
    rcases h with hc | ⟨it', hit', rfl⟩
    · left
      by_cases hij : it.1 = i
      · subst hij
        simp only [List.get?_eq_getElem?]
        exact List.getElem?_set_self (by simpa using hi) ▸ rfl
      · rw [List.get?_eq_getElem?, List.getElem?_set_ne hij,
          ← List.get?_eq_getElem?]
        exact hc
    · rcases List.mem_cons.mp hit' with rfl | htl
      · left
        simp only [List.get?_eq_getElem?]
        exact List.getElem?_set_self (by simpa using hi) ▸ rfl
      · right
        exact ⟨it', htl, rfl⟩

/-- Exiting the wavefront loop: an empty ready set with everything
marked and no recorded errors returns success immediately. -/
theorem run_all_targets_loop_exit (task_name : String) (plan : Plan)
    (rts : ResolvedTargetSet) (target_map : List (String × Nat))
    (keep_going : Bool) (fuel : Nat) (completed : List Bool)
    (env : Environment)
    (hready : ready_targets task_name plan rts target_map completed env = [])
    (hall : completed.all (fun c => c) = true) :
    run_all_targets_loop task_name plan rts target_map keep_going (fuel + 1)
      completed false env = (some (env, .ok ()), []) := by
  simp only [run_all_targets_loop, hready, List.isEmpty_nil, if_true, hall,
    Bool.not_true, Bool.false_eq_true, if_false]

/-- C7: when every step of every target is already recorded complete,
the all-targets run executes zero steps, leaves the environment
untouched, and returns success. -/
theorem c7_idempotent_when_complete (task_name : String) (keep_going : Bool)
    (plan : Plan) (rts : ResolvedTargetSet) (fuel : Nat) (env : Environment)
    (hfuel : 2 ≤ fuel)
    (hcomp : ∀ i < rts.targets.length,
      is_target_completed task_name i plan env = true) :
    run_all_targets_command task_name keep_going plan rts fuel env =
      (some (env, .ok ()), []) := by
  obtain ⟨f, rfl⟩ : ∃ f, fuel = f + 1 + 1 := ⟨fuel - 2, by omega⟩
  simp only [run_all_targets_command]
  have henum_lt : ∀ it ∈ enum_from 0 rts.targets,
      it.1 < rts.targets.length ∧ rts.targets.get? it.1 = some it.2 := by
    rintro ⟨i, t⟩ hit
    obtain ⟨k, hk, hget⟩ := (enum_from_mem_iff rts.targets 0 i t).mp hit
    have hik : i = k := by omega
    subst hik
    obtain ⟨hlt, _⟩ := List.get?_eq_some.mp hget
    exact ⟨hlt, hget⟩
  have hdeps_all : ∀ t : Target,
      are_target_dependencies_completed task_name t plan
        (mk_target_map rts.targets) env = true := by
    intro t
    apply (are_target_dependencies_completed_iff task_name t plan
      (mk_target_map rts.targets) env).mpr
    intro dep hdep didx hmap
    obtain ⟨t', hget'⟩ := map_get_mk_target_map rts.targets dep didx hmap
    obtain ⟨hlt, _⟩ := List.get?_eq_some.mp hget'
    exact hcomp didx hlt
  have hready : ready_targets task_name plan rts (mk_target_map rts.targets)
      (List.replicate rts.targets.length false) env = enum_from 0 rts.targets := by
    apply List.filter_eq_self.mpr
    rintro ⟨i, t⟩ hit
    obtain ⟨hlt, _⟩ := henum_lt (i, t) hit
    simp only [not_marked_completed, List.get?_eq_getElem?,
      List.getElem?_replicate_of_lt hlt, Bool.and_eq_true]
    exact ⟨rfl, hdeps_all t⟩
  by_cases hnil : rts.targets = []
  · have hready0 : ready_targets task_name plan rts (mk_target_map rts.targets)
        (List.replicate rts.targets.length false) env = [] := by
      rw [hready, hnil]
      rfl
    have hall0 : (List.replicate rts.targets.length false).all (fun c => c)
        = true := by
      rw [hnil]
      rfl
    exact run_all_targets_loop_exit task_name plan rts
      (mk_target_map rts.targets) keep_going (f + 1)
      (List.replicate rts.targets.length false) env hready0 hall0
  · have hene : (enum_from 0 rts.targets).isEmpty = false := by
      cases h : rts.targets with
      | nil => exact absurd h hnil
      | cons a as => simp [enum_from]
    have hbatch := run_batch_all_complete task_name plan
      (enum_from 0 rts.targets) env
      (fun it hit => hcomp it.1 (henum_lt it hit).1)
    have hmarked : ∀ i < rts.targets.length,
        ((enum_from 0 rts.targets).foldl (fun c it => c.set it.1 true)
          (List.replicate rts.targets.length false)).get? i = some true := by
      intro i hi
      apply foldl_set_true_get
      · simpa using hi
      · right
        have hget : rts.targets.get? i =
            some (rts.targets.get ⟨i, hi⟩) := List.get?_eq_get hi
        exact ⟨(i, rts.targets.get ⟨i, hi⟩),
          (enum_from_mem_iff rts.targets 0 i _).mpr ⟨i, by omega, hget⟩, rfl⟩
    have hlen : ((enum_from 0 rts.targets).foldl (fun c it => c.set it.1 true)
        (List.replicate rts.targets.length false)).length =
        rts.targets.length := by
      rw [foldl_set_length]
      exact List.length_replicate _ _
    have hready2 : ready_targets task_name plan rts (mk_target_map rts.targets)
        ((enum_from 0 rts.targets).foldl (fun c it => c.set it.1 true)
          (List.replicate rts.targets.length false)) env = [] := by
      apply List.filter_eq_nil_iff.mpr
      rintro ⟨i, t⟩ hit hc
      obtain ⟨hlt, _⟩ := henum_lt (i, t) hit
      simp only [not_marked_completed, hmarked i hlt, Bool.and_eq_true] at hc
      simp at hc
    have hall : ((enum_from 0 rts.targets).foldl (fun c it => c.set it.1 true)
        (List.replicate rts.targets.length false)).all (fun c => c) = true := by
      apply List.all_eq_true.mpr
      intro b hb
      obtain ⟨n, hn⟩ := List.mem_iff_get?.mp hb
      obtain ⟨hlt, _⟩ := List.get?_eq_some.mp hn
      rw [hlen] at hlt
      have := hmarked n hlt
      rw [this] at hn
      cases hn
      rfl
    have hexit := run_all_targets_loop_exit task_name plan rts
      (mk_target_map rts.targets) keep_going f
      ((enum_from 0 rts.targets).foldl (fun c it => c.set it.1 true)
        (List.replicate rts.targets.length false)) env hready2 hall
    conv_lhs => rw [run_all_targets_loop]
    rw [hready, hene]
    simp only [Bool.false_eq_true, if_false, hbatch, process_results_all_ok,
      hexit, List.nil_append]

/-- Witness for C7: a concrete fully-completed store makes the
all-targets run a no-op success. -/
theorem c7_idempotent_when_complete_witness :
    (2 ≤ 2 ∧ ∀ i < rts_fail.targets.length,
      is_target_completed "t" i plan_fail env_done = true) ∧
    run_all_targets_command "t" false plan_fail rts_fail 2 env_done =
      (some (env_done, .ok ()), []) :=
  ⟨⟨by omega, by decide⟩,
   c7_idempotent_when_complete "t" false plan_fail rts_fail 2 env_done
     (by omega) (by decide)⟩

/-- Running the always-failing step of target 0 writes exit status 1 and
fails, in any environment resolving `/bin/false` whose oracle reports
exit code 1 for that key. -/
theorem run_fail_target_step (env : Environment)
    (hpaths : env.path_dirs = ["/bin"])
    (hexe : env.executable_files = ["/bin/false"])
    (hcode : env.exit_code "t" 0 1 = some 1) :
    run_single_step (.RunCommand "false" []) "/wa" "t" 1 0 env =
      (write_exit_status (create_state_dir env "t" 0 1) "t" 0 1
        (exit_status_content (some 1)),
       .error (.CommandFailed ("false" ++ " " ++ " ".intercalate [])
         "/wa" (some 1))) := by
  have hprobe : command_is_executable (create_state_dir env "t" 0 1) "false"
      = true := by
    simp only [command_is_executable, is_executable, create_state_dir,
      update_store, hpaths, hexe]
    decide
  have hcode' : (create_state_dir env "t" 0 1).exit_code "t" 0 1 = some 1 :=
    hcode
  simp only [run_single_step]
  rw [hprobe, hcode']
  rfl

/-- After that failing run, the step of target 0 is still incomplete: the
recorded exit status is `"1"`. -/
theorem step_still_incomplete (env : Environment) :
    is_step_completed "t" 0 1 (.RunCommand "false" [])
      (write_exit_status (create_state_dir env "t" 0 1) "t" 0 1
        (exit_status_content (some 1))) = false := by
  simp only [is_step_completed, write_exit_status, create_state_dir,
    update_store, and_self, if_true]
  decide

/-- In keep-going mode, as long as target 0 is unmarked and its step
deterministically fails, the wavefront loop never exits: it re-dispatches
the failed step forever, whatever the fuel. -/
theorem run_all_targets_loop_fail_diverges :
    ∀ (fuel : Nat) (completed : List Bool) (he : Bool) (env : Environment),
      completed.get? 0 = some false →
      env.path_dirs = ["/bin"] →
      env.executable_files = ["/bin/false"] →
      env.exit_code "t" 0 1 = some 1 →
      is_step_completed "t" 0 1 (.RunCommand "false" []) env = false →
      (run_all_targets_loop "t" plan_fail rts_fail
        (mk_target_map rts_fail.targets) true fuel completed he env).1
        = none := by
  intro fuel
  induction fuel with
  | zero =>
    intro completed he env h0 hp hx hc hi
    rfl
  | succ n ih =>
    intro completed he env h0 hp hx hc hi
    have hpred0 : (not_marked_completed completed 0 &&
        are_target_dependencies_completed "t"
          { manifest_dir := "/wa", dependencies := [] } plan_fail
          (mk_target_map rts_fail.targets) env) = true := by
      simp only [not_marked_completed, h0]
      rfl
    have hsteps_A : run_steps_from "t" "/wa" 0 env plan_fail.steps 0 =
        (write_exit_status (create_state_dir env "t" 0 1) "t" 0 1
          (exit_status_content (some 1)),
         .error (.CommandFailed ("false" ++ " " ++ " ".intercalate [])
           "/wa" (some 1)),
         [⟨0, 1, env⟩]) := by
      simp only [plan_fail, run_steps_from, hi, Bool.not_false, if_true]
      rw [run_fail_target_step env hp hx hc]
    cases hfB : (not_marked_completed completed 1 &&
        are_target_dependencies_completed "t"
          { manifest_dir := "/wb", dependencies := [] } plan_fail
          (mk_target_map rts_fail.targets) env) with
    | false =>
      have henum : enum_from 0 rts_fail.targets =
          [(0, { manifest_dir := "/wa", dependencies := [] }),
           (1, { manifest_dir := "/wb", dependencies := [] })] := rfl
      have hready_eq : ready_targets "t" plan_fail rts_fail
          (mk_target_map rts_fail.targets) completed env =
          [(0, { manifest_dir := "/wa", dependencies := [] })] := by
        simp only [ready_targets, henum, List.filter, hpred0, hfB]
      have hbatch : run_batch "t" plan_fail
          [(0, { manifest_dir := "/wa", dependencies := [] })] env =
          (write_exit_status (create_state_dir env "t" 0 1) "t" 0 1
            (exit_status_content (some 1)),
           [.error (.CommandFailed ("false" ++ " " ++ " ".intercalate [])
             "/wa" (some 1))],
           [⟨0, 1, env⟩] ++ []) := by
        simp only [run_batch, hsteps_A, Except.map]
      conv_lhs => rw [run_all_targets_loop]
      rw [hready_eq, hbatch]
      exact ih completed true
        (write_exit_status (create_state_dir env "t" 0 1) "t" 0 1
          (exit_status_content (some 1)))
        h0 hp hx hc (step_still_incomplete env)
    | true =>
      have henum : enum_from 0 rts_fail.targets =
          [(0, { manifest_dir := "/wa", dependencies := [] }),
           (1, { manifest_dir := "/wb", dependencies := [] })] := rfl
      have hready_eq : ready_targets "t" plan_fail rts_fail
          (mk_target_map rts_fail.targets) completed env =
          [(0, { manifest_dir := "/wa", dependencies := [] }),
           (1, { manifest_dir := "/wb", dependencies := [] })] := by
        simp only [ready_targets, henum, List.filter, hpred0, hfB]
      rcases hB : run_steps_from "t" "/wb" 1
        (write_exit_status (create_state_dir env "t" 0 1) "t" 0 1
          (exit_status_content (some 1))) plan_fail.steps 0
        with ⟨envB, rB, trB⟩
      obtain ⟨f, hf⟩ := run_steps_from_store_shape "t" "/wb" 1
        plan_fail.steps 0
        (write_exit_status (create_state_dir env "t" 0 1) "t" 0 1
          (exit_status_content (some 1)))
      rw [hB] at hf
      simp only at hf
      have hpB : envB.path_dirs = ["/bin"] := by
        rw [hf]
        exact hp
      have hxB : envB.executable_files = ["/bin/false"] := by
        rw [hf]
        exact hx
      have hcB : envB.exit_code "t" 0 1 = some 1 := by
        rw [hf]
        exact hc
      have hfr := run_steps_from_frame "t" "/wb" 1 plan_fail.steps 0
        (write_exit_status (create_state_dir env "t" 0 1) "t" 0 1
          (exit_status_content (some 1))) "t" 0 1 (by decide)
      rw [hB] at hfr
      have hiB : is_step_completed "t" 0 1 (.RunCommand "false" []) envB
          = false := by
        rw [is_step_completed_congr "t" 0 1 (.RunCommand "false" []) envB
          (write_exit_status (create_state_dir env "t" 0 1) "t" 0 1
            (exit_status_content (some 1))) hfr]
        exact step_still_incomplete env
      have hbatch : run_batch "t" plan_fail
          [(0, { manifest_dir := "/wa", dependencies := [] }),
           (1, { manifest_dir := "/wb", dependencies := [] })] env =
          (envB,
           [.error (.CommandFailed ("false" ++ " " ++ " ".intercalate [])
             "/wa" (some 1)), rB.map (fun _ => 1)],
           [⟨0, 1, env⟩] ++ (trB ++ [])) := by
        simp only [run_batch, hsteps_A, hB, Except.map]
      conv_lhs => rw [run_all_targets_loop]
      rw [hready_eq, hbatch]
      cases rB with
      | ok u =>
        have h0' : (completed.set 1 true).get? 0 = some false := by
          rw [List.get?_eq_getElem?, List.getElem?_set_ne (by decide),
            ← List.get?_eq_getElem?]
          exact h0
        exact ih (completed.set 1 true) true envB h0' hpB hxB hcB hiB
      | error eB =>
        exact ih completed true envB h0 hpB hxB hcB hiB

/-- C2 (code bug): in keep-going mode on the task where target 0's only
step fails deterministically and target 1 is independent, the
all-targets run never terminates for ANY amount of fuel — the failed
target is never marked completed, stays in every ready set, and is
re-dispatched forever — so the claimed aggregate `SomeStepsFailed`
result is never returned. -/
theorem c2_keep_going_run_diverges (fuel : Nat) :
    (run_all_targets_command "t" true plan_fail rts_fail fuel env_fail).1
      = none := by
  simp only [run_all_targets_command]
  apply run_all_targets_loop_fail_diverges fuel
    (List.replicate rts_fail.targets.length false) false env_fail
  · rfl
  · rfl
  · rfl
  · rfl
  · rfl

/-- C3 (code bug): within a single all-targets invocation (fuel 3) on
the same task, the failed step (target 0, step 1) is dispatched three
times — an attempted (failed) step IS automatically re-attempted before
the invocation returns. -/
theorem c3_failed_step_redispatched :
    ((run_all_targets_command "t" true plan_fail rts_fail 3 env_fail).2.map
      (fun d => (d.target_number, d.step_number))) =
      [(0, 1), (1, 1), (0, 1), (0, 1)] ∧
    ((run_all_targets_command "t" true plan_fail rts_fail 3 env_fail).2.map
      (fun d => (d.target_number, d.step_number))).count (0, 1) = 3 :=
  ⟨by decide, by decide⟩

/-- Witness for C9: in the empty environment no command resolves, and
running a `RunCommand` step returns `CommandNotFound` having only created
the state directory. -/
theorem c9_command_not_found_witness :
    command_is_executable env0 "x" = false ∧
    run_single_step (.RunCommand "x" []) "/d" "t" 1 0 env0 =
      (create_state_dir env0 "t" 0 1, .error (.CommandNotFound "x")) :=
  ⟨rfl, (c9_command_not_found env0 "x" [] "/d" "t" 1 0 rfl).1⟩

end CargoForEach
